import Mathlib

/-! # Dynex wallet: blockchain indices, the node RPC proxy and error codes

A shallow embedding of `src/DynexCNCore/BlockchainIndices.cpp`, of the state
carried by `src/NodeRpcProxy/NodeRpcProxy.h` and of the error codes of
`src/PaymentGate/WalletServiceErrorCategory.h`, with the properties of the
five blockchain indices, of the proxy life cycle and of the error codes.

Conventions of the embedding

* `uint32_t` / `uint64_t` values are natural numbers; where the code can wrap
  (`++hashesNumber`, `static_cast<uint32_t>`) the reduction modulo `2^32` is
  written out.
* A `std::multimap<uint64_t, Crypto::Hash>` is the list of its entries in
  iteration order. Iterators are positions in that list, `index.end()` being
  the length of the list. The unordered containers are lists as well; their
  iteration order is unspecified, and what is proved of them does not depend
  on it.
* A function that can `throw std::runtime_error` returns `Except String`.
* Reference (output) parameters are passed in and returned in the result.
-/

namespace DynexCN

/-- The type `Crypto::Hash`: a 32-byte digest. The indices only copy hashes and
compare them for equality, so a hash is represented by its numeric value. -/
abbrev Hash := Nat

/-- Contents of a `std::multimap<uint64_t, Crypto::Hash>`, listed in iteration
order. -/
abbrev Multimap := List (Nat × Hash)

namespace Multimap

/-- The ordering invariant of `std::multimap`: iteration visits the keys in
non-decreasing order. -/
def Ordered (m : Multimap) : Prop :=
  List.Pairwise (fun a b => a.1 ≤ b.1) m

instance (m : Multimap) : Decidable (Ordered m) := by
  unfold Ordered
  infer_instance

/-- The call `index.lower_bound(key)`: position of the first entry whose key
is not less than `key`. -/
def lower_bound (m : Multimap) (key : Nat) : Nat :=
  (m.takeWhile (fun e => decide (e.1 < key))).length

/-- The call `index.upper_bound(key)`: position of the first entry whose key
is greater than `key`. -/
def upper_bound (m : Multimap) (key : Nat) : Nat :=
  (m.takeWhile (fun e => decide (e.1 ≤ key))).length

/-- The call `index.emplace(key, hash)`: the new entry goes after every entry
whose key is not greater (the upper bound of the equal range). -/
def emplace (m : Multimap) (key : Nat) (hash : Hash) : Multimap :=
  m.takeWhile (fun e => decide (e.1 ≤ key)) ++
    (key, hash) :: m.dropWhile (fun e => decide (e.1 ≤ key))

end Multimap

/-- The call `std::distance(first, last)` on two positions: a signed
`ptrdiff_t`. -/
def distance (first last : Nat) : Int :=
  (last : Int) - (first : Int)

/-- The conversion `static_cast<uint32_t>(d)`. -/
def static_cast_uint32 (d : Int) : Nat :=
  (d % (2 ^ 32 : Int)).toNat

/-- Entries whose timestamp `t` satisfies `timestampBegin <= t <= timestampEnd`,
in index order. -/
def entriesWithin (m : Multimap) (timestampBegin timestampEnd : Nat) : Multimap :=
  m.filter (fun e => decide (timestampBegin ≤ e.1 ∧ e.1 ≤ timestampEnd))

/-- Result of a timestamp `find`: the returned flag and the two reference
parameters after the call. -/
structure FindResult where
  /-- The value returned by `find`. -/
  ret : Bool
  /-- The vector `hashes` after the call. -/
  hashes : List Hash
  /-- The variable `hashesNumberWithinTimestamps` after the call. -/
  hashesNumberWithinTimestamps : Nat
deriving DecidableEq, Repr

/-- The loop
`for (auto iter = begin; iter != end && hashesNumber < hashesNumberLimit; ++iter)
 { ++hashesNumber; hashes.emplace_back(iter->second); }`.
The first list is the part of the index from `iter` on, `iter` is the position
of its head, `hashesNumber` is the `uint32_t` counter. An exhausted list means
`iter == index.end()`. Returns the final `hashesNumber` and `hashes`. -/
def findLoop (end_ hashesNumberLimit : Nat) :
    List (Nat × Hash) → Nat → Nat → List Hash → Nat × List Hash
  | [], _, hashesNumber, hashes => (hashesNumber, hashes)
  | e :: rest, iter, hashesNumber, hashes =>
    if iter ≠ end_ ∧ hashesNumber < hashesNumberLimit then
      findLoop end_ hashesNumberLimit rest (iter + 1)
        ((hashesNumber + 1) % 2 ^ 32) (hashes ++ [e.2])
    else
      (hashesNumber, hashes)

/-- The class `TimestampBlocksIndex`: the `enabled` flag and the multimap
`index` from block timestamp to block hash. -/
structure TimestampBlocksIndex where
  /-- The member `enabled`. -/
  enabled : Bool
  /-- The member `index`. -/
  index : Multimap
deriving DecidableEq, Repr

namespace TimestampBlocksIndex

/-- The method `TimestampBlocksIndex::add`. Returns the flag and the index
after the call. -/
def add (self : TimestampBlocksIndex) (timestamp : Nat) (hash : Hash) :
    Bool × TimestampBlocksIndex :=
  if !self.enabled then
    (false, self)
  else
    (true, { self with index := self.index.emplace timestamp hash })

/-- The method `TimestampBlocksIndex::find`; `hashesNumberLimit` is a
`uint32_t`, `hashes` and `hashesNumberWithinTimestamps` are the reference
parameters as they are on entry. -/
def find (self : TimestampBlocksIndex) (timestampBegin timestampEnd : Nat)
    (hashesNumberLimit : Nat) (hashes : List Hash)
    (hashesNumberWithinTimestamps : Nat) : Except String FindResult :=
  if !self.enabled then
    throw "Timestamp block index disabled."
  else
    let hashesNumber := 0
    if timestampBegin > timestampEnd then
      pure ⟨false, hashes, hashesNumberWithinTimestamps⟩
    else
      let begin := self.index.lower_bound timestampBegin
      let end_ := self.index.upper_bound timestampEnd
      let hashesNumberWithinTimestamps := static_cast_uint32 (distance begin end_)
      let r := findLoop end_ hashesNumberLimit (self.index.drop begin) begin
        hashesNumber hashes
      pure ⟨decide (r.1 > 0), r.2, hashesNumberWithinTimestamps⟩

end TimestampBlocksIndex

/-- The class `TimestampTransactionsIndex`: the `enabled` flag and the multimap
`index` from transaction timestamp to transaction hash. -/
structure TimestampTransactionsIndex where
  /-- The member `enabled`. -/
  enabled : Bool
  /-- The member `index`. -/
  index : Multimap
deriving DecidableEq, Repr

namespace TimestampTransactionsIndex

/-- The method `TimestampTransactionsIndex::add`. -/
def add (self : TimestampTransactionsIndex) (timestamp : Nat) (hash : Hash) :
    Bool × TimestampTransactionsIndex :=
  if !self.enabled then
    (false, self)
  else
    (true, { self with index := self.index.emplace timestamp hash })

/-- The method `TimestampTransactionsIndex::find`; here `hashesNumberLimit`
and `hashesNumberWithinTimestamps` are `uint64_t`, while the local counter
`hashesNumber` and the cast of the distance stay `uint32_t`. -/
def find (self : TimestampTransactionsIndex) (timestampBegin timestampEnd : Nat)
    (hashesNumberLimit : Nat) (hashes : List Hash)
    (hashesNumberWithinTimestamps : Nat) : Except String FindResult :=
  if !self.enabled then
    throw "Timestamp transactions index disabled."
  else
    let hashesNumber := 0
    if timestampBegin > timestampEnd then
      pure ⟨false, hashes, hashesNumberWithinTimestamps⟩
    else
      let begin := self.index.lower_bound timestampBegin
      let end_ := self.index.upper_bound timestampEnd
      let hashesNumberWithinTimestamps := static_cast_uint32 (distance begin end_)
      let r := findLoop end_ hashesNumberLimit (self.index.drop begin) begin
        hashesNumber hashes
      pure ⟨decide (r.1 > 0), r.2, hashesNumberWithinTimestamps⟩

end TimestampTransactionsIndex

/-! ## The node RPC proxy

`NodeRpcProxy.h` declares the state of the proxy and its operations; the
bodies of the operations live in `NodeRpcProxy.cpp`, which is not among the
sources, so they are modelled from the design document. -/

/-- Modelled from the spec: the error kinds of section 7 (the header
`NodeErrors.h` is missing). `NOT_INITIALIZED` is the kind the document calls
"not-initialized / wrong-state". -/
inductive NodeError where
  | NOT_INITIALIZED
  | CONNECTION_ERROR
  | TIMEOUT
  | MALFORMED_RESPONSE
  | APPLICATION_REJECTED
  | INTERRUPTED
  | INVALID_ARGUMENT
deriving DecidableEq, Repr

/-- The `std::error_code` handed to a completion callback: `none` is success. -/
abbrev ErrorCode := Option NodeError

/-- Modelled from the spec: the cached "last local block header info (hash,
height, timestamp, difficulty)"; the type `BlockHeaderInfo` of `INode.h` is
missing. -/
structure BlockHeaderInfo where
  /-- Block hash. -/
  hash : Hash
  /-- Block height. -/
  index : Nat
  /-- Block timestamp. -/
  timestamp : Nat
  /-- Block difficulty. -/
  difficulty : Nat
deriving DecidableEq, Repr

/-- Modelled from the spec: of an added pool transaction (`ITransactionReader`,
whose header is missing) only the identifier is used. -/
structure ITransactionReader where
  /-- The identifier returned by `getTransactionHash()`. -/
  getTransactionHash : Hash
deriving DecidableEq, Repr

/-- The enumeration `NodeRpcProxy::State`. -/
inductive State where
  | STATE_NOT_INITIALIZED
  | STATE_INITIALIZING
  | STATE_INITIALIZED
deriving DecidableEq, Repr

/-- The data members of `NodeRpcProxy` that the design document speaks about.
The thread object `m_workerThread` is kept as the flag `workerRunning`
(the thread is joinable); `m_knownTxs` is a finite set of hashes. -/
structure NodeRpcProxy where
  /-- The member `m_nodeHost`. -/
  m_nodeHost : String
  /-- The member `m_nodePort`. -/
  m_nodePort : Nat
  /-- The member `m_state`. -/
  m_state : State
  /-- Whether `m_workerThread` is running. -/
  workerRunning : Bool
  /-- The member `m_rpcTimeout`. -/
  m_rpcTimeout : Nat
  /-- The member `m_pullInterval`. -/
  m_pullInterval : Nat
  /-- The member `m_stop`. -/
  m_stop : Bool
  /-- The member `m_peerCount`. -/
  m_peerCount : Nat
  /-- The member `m_networkHeight`. -/
  m_networkHeight : Nat
  /-- The member `m_nodeHeight`. -/
  m_nodeHeight : Nat
  /-- The member `m_minimalFee`. -/
  m_minimalFee : Nat
  /-- The member `lastLocalBlockHeaderInfo`. -/
  lastLocalBlockHeaderInfo : BlockHeaderInfo
  /-- The member `m_knownTxs`. -/
  m_knownTxs : Finset Hash
  /-- The member `m_connected`. -/
  m_connected : Bool
  /-- The member `m_fee_address`. -/
  m_fee_address : String
deriving DecidableEq

/-- The asynchronous public operations of `NodeRpcProxy.h` (lines 93 to 108),
each taking a completion callback. The three overloads of `getBlocks` are told
apart by their argument. -/
inductive Operation where
  | relayTransaction
  | getRandomOutsByAmounts
  | getNewBlocks
  | getTransactionOutsGlobalIndices
  | queryBlocks
  | getPoolSymmetricDifference
  | getMultisignatureOutputByGlobalIndex
  | getBlocksByHeights
  | getBlocksByHashes
  | getBlocksByTimestamps
  | getBlock
  | getTransactions
  | getTransactionsByPaymentId
  | getPoolTransactions
  | isSynchronized
deriving DecidableEq, Repr

/-- What a call has done when it returns: the proxy, the output (reference)
parameters of the call, and the error codes delivered to the callback, in
order. -/
structure CallResult (Out : Type) where
  /-- The proxy after the call. -/
  proxy : NodeRpcProxy
  /-- The output parameters after the call. -/
  out : Out
  /-- The error codes the callback has received. -/
  delivered : List ErrorCode

namespace NodeRpcProxy

/-- Modelled from the spec: `NodeRpcProxy::scheduleRequest` (its body is in the
missing `NodeRpcProxy.cpp`). Section 4.1: a request scheduled while the proxy
is being shut down fails fast with the interrupted error instead of being
queued; otherwise the procedure runs (here: a function from the output
parameters to the error indicator and the new output parameters) and the
callback receives its error indicator once. -/
def scheduleRequest {Out : Type} (self : NodeRpcProxy)
    (procedure : Out → ErrorCode × Out) (out : Out) : CallResult Out :=
  if self.m_stop then
    ⟨self, out, [some NodeError.INTERRUPTED]⟩
  else
    let r := procedure out
    ⟨self, r.2, [r.1]⟩

/-- Modelled from the spec: the body shared by the public asynchronous
operations (in the missing `NodeRpcProxy.cpp`). Section 4.5: "validate state is
INITIALIZED, construct the wire request from the operation's typed arguments,
call `scheduleRequest` with a procedure that performs one or more Transport
Adapter round-trips and populates output parameters by reference, and deliver
the final error code via the caller's callback"; section 3: the operation
fails immediately unless the state is INITIALIZED. -/
def invoke {Out : Type} (self : NodeRpcProxy) (_op : Operation)
    (procedure : Out → ErrorCode × Out) (out : Out) : CallResult Out :=
  if self.m_state ≠ State.STATE_INITIALIZED then
    ⟨self, out, [some NodeError.NOT_INITIALIZED]⟩
  else
    self.scheduleRequest procedure out

/-- Modelled from the spec: `NodeRpcProxy::init` (its body is in the missing
`NodeRpcProxy.cpp`). Section 4.3: "fails immediately if state is not
NOT_INITIALIZED; otherwise sets INITIALIZING, starts the worker thread, and
returns without blocking the caller". Returns the proxy and the error codes
the callback has received when `init` returns. -/
def init (self : NodeRpcProxy) : NodeRpcProxy × List ErrorCode :=
  if self.m_state ≠ State.STATE_NOT_INITIALIZED then
    (self, [some NodeError.NOT_INITIALIZED])
  else
    ({ self with m_state := State.STATE_INITIALIZING, workerRunning := true, m_stop := false }, [])

/-- Modelled from the spec: the end of the handshake in
`NodeRpcProxy::workerThread` (missing `NodeRpcProxy.cpp`). Section 4.3: "the
worker performs the first status pull and, on success, transitions to
INITIALIZED and invokes the init callback with success; on failure it invokes
the callback with the failure and leaves the instance in a state equivalent to
NOT_INITIALIZED (no worker thread left running)". Nothing happens unless an
`init` is in progress. -/
def workerThread (self : NodeRpcProxy) (firstPull : ErrorCode) :
    NodeRpcProxy × List ErrorCode :=
  if self.m_state ≠ State.STATE_INITIALIZING then
    (self, [])
  else
    match firstPull with
    | none => ({ self with m_state := State.STATE_INITIALIZED }, [none])
    | some e =>
      ({ self with m_state := State.STATE_NOT_INITIALIZED, workerRunning := false }, [some e])

/-- Modelled from the spec: `NodeRpcProxy::shutdown` (its body is in the
missing `NodeRpcProxy.cpp`). Section 4.3: "signals the polling loop to stop,
unblocks the worker if it is waiting, joins the thread, clears the cached
snapshot and known-transaction set, resets state to NOT_INITIALIZED; callable
even if `init` never succeeded". Returns the flag and the proxy. -/
def shutdown (self : NodeRpcProxy) : Bool × NodeRpcProxy :=
  (true,
    { self with
      m_stop := true
      workerRunning := false
      m_peerCount := 0
      m_networkHeight := 0
      m_nodeHeight := 0
      m_minimalFee := 0
      lastLocalBlockHeaderInfo := ⟨0, 0, 0, 0⟩
      m_knownTxs := ∅
      m_state := State.STATE_NOT_INITIALIZED })

/-- Modelled from the spec: `NodeRpcProxy::updatePoolState` (its body is in the
missing `NodeRpcProxy.cpp`). Section 4.4: "apply the diff to the
Known-Transaction Set": the deleted identifiers are erased from `m_knownTxs`,
then the identifiers of the added transactions are inserted. -/
def updatePoolState (self : NodeRpcProxy) (addedTxs : List ITransactionReader)
    (deletedTxsIds : List Hash) : NodeRpcProxy :=
  let erased := deletedTxsIds.foldl (fun known hash => known.erase hash) self.m_knownTxs
  { self with
    m_knownTxs := addedTxs.foldl (fun known tx => insert tx.getTransactionHash known) erased }

end NodeRpcProxy

/-- A life-cycle event of the proxy: a call of `init`, the end of the worker's
handshake with the outcome of the first status pull, or a call of `shutdown`. -/
inductive LifecycleEvent where
  | init
  | workerThread (firstPull : ErrorCode)
  | shutdown
deriving DecidableEq, Repr

/-- The proxy after one life-cycle event. -/
def lifecycleStep (p : NodeRpcProxy) : LifecycleEvent → NodeRpcProxy
  | LifecycleEvent.init => p.init.1
  | LifecycleEvent.workerThread firstPull => (p.workerThread firstPull).1
  | LifecycleEvent.shutdown => p.shutdown.2

/-- The proxy after a sequence of life-cycle events. -/
def lifecycleRun (p : NodeRpcProxy) (events : List LifecycleEvent) : NodeRpcProxy :=
  events.foldl lifecycleStep p

/-- A proxy for the node `127.0.0.1:18333` in the given connection state, with
an empty snapshot and two known pool transactions; used in the examples. -/
def sampleProxy (state : State) : NodeRpcProxy :=
  { m_nodeHost := "127.0.0.1"
    m_nodePort := 18333
    m_state := state
    workerRunning := decide (state ≠ State.STATE_NOT_INITIALIZED)
    m_rpcTimeout := 10000
    m_pullInterval := 5000
    m_stop := false
    m_peerCount := 0
    m_networkHeight := 0
    m_nodeHeight := 0
    m_minimalFee := 0
    lastLocalBlockHeaderInfo := ⟨0, 0, 0, 0⟩
    m_knownTxs := {7, 8}
    m_connected := true
    m_fee_address := "" }

/-- The numeric value of an enumerator of `NodeRpcProxy::State`: the
enumeration gives no explicit values, so they count from 0. -/
def State.value : State → Nat
  | State.STATE_NOT_INITIALIZED => 0
  | State.STATE_INITIALIZING => 1
  | State.STATE_INITIALIZED => 2

namespace NodeRpcProxy

/-- Modelled from the spec: the constructor `NodeRpcProxy(nodeHost, nodePort)`,
whose body is in the missing `NodeRpcProxy.cpp`. Section 3: "the proxy
instance is constructed with a target host/port and an idle connection state".
The members `m_state` and `m_stop` take their default member initializers of
the header (`STATE_NOT_INITIALIZED`, `false`), the set and the string are
default-constructed, no worker thread runs; the members that the header
leaves without an initializer are parameters. -/
def construct (nodeHost : String) (nodePort : Nat) (rpcTimeout pullInterval : Nat)
    (peerCount networkHeight nodeHeight minimalFee : Nat) (headerInfo : BlockHeaderInfo)
    (connected : Bool) : NodeRpcProxy :=
  { m_nodeHost := nodeHost
    m_nodePort := nodePort
    m_state := State.STATE_NOT_INITIALIZED
    workerRunning := false
    m_rpcTimeout := rpcTimeout
    m_pullInterval := pullInterval
    m_stop := false
    m_peerCount := peerCount
    m_networkHeight := networkHeight
    m_nodeHeight := nodeHeight
    m_minimalFee := minimalFee
    lastLocalBlockHeaderInfo := headerInfo
    m_knownTxs := ∅
    m_connected := connected
    m_fee_address := "" }

/-- The getter `unsigned int rpcTimeout() const { return m_rpcTimeout; }`. -/
def rpcTimeout (self : NodeRpcProxy) : Nat :=
  self.m_rpcTimeout

/-- The setter `void rpcTimeout(unsigned int val) { m_rpcTimeout = val; }`;
the proxy after the call. -/
def rpcTimeoutSet (self : NodeRpcProxy) (val : Nat) : NodeRpcProxy :=
  { self with m_rpcTimeout := val }

end NodeRpcProxy

namespace NodeRpcProxy

end NodeRpcProxy

namespace error

/-- The enumeration `WalletServiceErrorCode`. -/
inductive WalletServiceErrorCode where
  | WRONG_KEY_FORMAT
  | WRONG_PAYMENT_ID_FORMAT
  | WRONG_HASH_FORMAT
  | OBJECT_NOT_FOUND
  | DUPLICATE_KEY
  | KEYS_NOT_DETERMINISTIC
deriving DecidableEq, Repr

/-- The conversion `static_cast<int>(e)`: `WRONG_KEY_FORMAT = 1`, and each
following enumerator is one more than the one before. -/
def WalletServiceErrorCode.toInt : WalletServiceErrorCode → Int
  | WalletServiceErrorCode.WRONG_KEY_FORMAT => 1
  | WalletServiceErrorCode.WRONG_PAYMENT_ID_FORMAT => 2
  | WalletServiceErrorCode.WRONG_HASH_FORMAT => 3
  | WalletServiceErrorCode.OBJECT_NOT_FOUND => 4
  | WalletServiceErrorCode.DUPLICATE_KEY => 5
  | WalletServiceErrorCode.KEYS_NOT_DETERMINISTIC => 6

/-- A `std::error_category` object, told apart by what `name()` returns. -/
structure ErrorCategory where
  /-- The result of `name()`. -/
  name : String
deriving DecidableEq, Repr

namespace WalletServiceErrorCategory

/-- The singleton `WalletServiceErrorCategory::INSTANCE`. -/
def INSTANCE : ErrorCategory :=
  ⟨"WalletServiceErrorCategory"⟩

/-- The method `WalletServiceErrorCategory::message`. -/
def message (ev : Int) : String :=
  if ev = WalletServiceErrorCode.WRONG_KEY_FORMAT.toInt then "Wrong key format"
  else if ev = WalletServiceErrorCode.WRONG_PAYMENT_ID_FORMAT.toInt then "Wrong payment id format"
  else if ev = WalletServiceErrorCode.WRONG_HASH_FORMAT.toInt then "Wrong block id format"
  else if ev = WalletServiceErrorCode.OBJECT_NOT_FOUND.toInt then "Requested object not found"
  else if ev = WalletServiceErrorCode.DUPLICATE_KEY.toInt then "Duplicate key"
  else if ev = WalletServiceErrorCode.KEYS_NOT_DETERMINISTIC.toInt then
    "Keys are non-deterministic"
  else "Unknown error"

end WalletServiceErrorCategory

end error

/-- A `std::error_code`: an integer value and its category. -/
structure std_error_code where
  /-- The result of `value()`. -/
  value : Int
  /-- The result of `category()`. -/
  category : error.ErrorCategory
deriving DecidableEq, Repr

/-- The conversion `explicit operator bool` of `std::error_code`: `true` when
the value is not zero, that is, when the code stands for an error. -/
def std_error_code.toBool (ec : std_error_code) : Bool :=
  decide (ec.value ≠ 0)

/-- The function `make_error_code(WalletServiceErrorCode e)`. -/
def make_error_code (e : error.WalletServiceErrorCode) : std_error_code :=
  ⟨e.toInt, error.WalletServiceErrorCategory.INSTANCE⟩

/-! ## Removal from the timestamp indices -/

namespace Multimap

/-- The loop of `remove`,
`for (auto iter = range.first; iter != range.second; ++iter)
 if (iter->second == hash) { index.erase(iter); return true; }`,
up to the call of `erase`: the position of the entry to erase, or `none` when
the loop ends without finding one. The list is the part of the index from
`iter` on, `last` is `range.second`. -/
def removeLoop (last : Nat) (hash : Hash) : List (Nat × Hash) → Nat → Option Nat
  | [], _ => none
  | e :: rest, iter =>
    if iter ≠ last then
      if e.2 = hash then some iter else removeLoop last hash rest (iter + 1)
    else
      none

/-- The statements of `remove` after the `enabled` check: the equal range of
`key` is `[lower_bound(key), upper_bound(key))`; the index after `erase`, or
`none` when `remove` returns `false`. -/
def removeFirst (m : Multimap) (key : Nat) (hash : Hash) : Option Multimap :=
  let first := m.lower_bound key
  let last := m.upper_bound key
  match removeLoop last hash (m.drop first) first with
  | some iter => some (m.eraseIdx iter)
  | none => none

end Multimap

/-- The constructor `TimestampBlocksIndex(bool _enabled)`. -/
def TimestampBlocksIndex.construct (_enabled : Bool) : TimestampBlocksIndex :=
  ⟨_enabled, []⟩

/-- The method `TimestampBlocksIndex::remove`. -/
def TimestampBlocksIndex.remove (self : TimestampBlocksIndex) (timestamp : Nat) (hash : Hash) :
    Bool × TimestampBlocksIndex :=
  if !self.enabled then
    (false, self)
  else
    match self.index.removeFirst timestamp hash with
    | some index => (true, { self with index := index })
    | none => (false, self)

/-- The method `TimestampBlocksIndex::clear`. -/
def TimestampBlocksIndex.clear (self : TimestampBlocksIndex) : TimestampBlocksIndex :=
  if self.enabled then { self with index := [] } else self

/-- The constructor `TimestampTransactionsIndex(bool _enabled)`. -/
def TimestampTransactionsIndex.construct (_enabled : Bool) : TimestampTransactionsIndex :=
  ⟨_enabled, []⟩

/-- The method `TimestampTransactionsIndex::remove`. -/
def TimestampTransactionsIndex.remove (self : TimestampTransactionsIndex) (timestamp : Nat)
    (hash : Hash) : Bool × TimestampTransactionsIndex :=
  if !self.enabled then
    (false, self)
  else
    match self.index.removeFirst timestamp hash with
    | some index => (true, { self with index := index })
    | none => (false, self)

/-- The method `TimestampTransactionsIndex::clear`. -/
def TimestampTransactionsIndex.clear (self : TimestampTransactionsIndex) :
    TimestampTransactionsIndex :=
  if self.enabled then { self with index := [] } else self

/-! ## Blocks and transactions

The types `Transaction` and `Block` are declared in a header that is not among
the sources; kept are the members that `BlockchainIndices.cpp` reads. -/

/-- An element of `Transaction::inputs`, a `boost::variant`: either a
`BaseInput` with its `blockIndex` (a `uint32_t`), or an input of another kind. -/
inductive TransactionInput where
  | BaseInput (blockIndex : Nat)
  | other
deriving DecidableEq, Repr

/-- The type `Transaction`: its inputs and its `extra` bytes. -/
structure Transaction where
  /-- The member `inputs`. -/
  inputs : List TransactionInput
  /-- The member `extra`. -/
  extra : List Nat
deriving DecidableEq, Repr

/-- The type `Block`: the miner transaction and the hashes of the other
transactions. -/
structure Block where
  /-- The member `baseTransaction`. -/
  baseTransaction : Transaction
  /-- The member `transactionHashes`. -/
  transactionHashes : List Hash
deriving DecidableEq, Repr

/-- The expression
`boost::get<BaseInput>(block.baseTransaction.inputs.front()).blockIndex`.
`boost::get` throws `boost::bad_get` when the first input is not a
`BaseInput`; `front()` of an empty vector is undefined and is reported as an
error as well. -/
def baseInputBlockIndex (block : Block) : Except String Nat :=
  match block.baseTransaction.inputs with
  | [] => throw "front() called on an empty vector"
  | TransactionInput.BaseInput blockIndex :: _ => pure blockIndex
  | TransactionInput.other :: _ => throw "boost::bad_get"

/-- A modifying call on an index: `add`, `remove` or `clear`, with the
argument of the call. -/
inductive IndexCall (A : Type) where
  | add (a : A)
  | remove (a : A)
  | clear

/-- The index after a call of `TimestampBlocksIndex`. -/
def TimestampBlocksIndex.call (self : TimestampBlocksIndex) :
    IndexCall (Nat × Hash) → TimestampBlocksIndex
  | IndexCall.add a => (self.add a.1 a.2).2
  | IndexCall.remove a => (self.remove a.1 a.2).2
  | IndexCall.clear => self.clear

/-- The index after a call of `TimestampTransactionsIndex`. -/
def TimestampTransactionsIndex.call (self : TimestampTransactionsIndex) :
    IndexCall (Nat × Hash) → TimestampTransactionsIndex
  | IndexCall.add a => (self.add a.1 a.2).2
  | IndexCall.remove a => (self.remove a.1 a.2).2
  | IndexCall.clear => self.clear

/-! ## The generated transactions index -/

/-- Contents of the `std::unordered_map<uint32_t, uint64_t>` of
`GeneratedTransactionsIndex`; the iteration order is unspecified and plays no
part. -/
abbrev UnorderedMap := List (Nat × Nat)

namespace UnorderedMap

/-- The call `index.find(key)`: the value at the returned iterator, `none` for
`index.end()`. -/
def find (m : UnorderedMap) (key : Nat) : Option Nat :=
  (List.find? (fun e => decide (e.1 = key)) m).map Prod.snd

/-- The call `index.emplace(key, value)`: the member `second` of the result
(whether the entry was inserted) and the map after the call; nothing is
inserted when the key is present. -/
def emplace (m : UnorderedMap) (key value : Nat) : Bool × UnorderedMap :=
  match m.find key with
  | some _ => (false, m)
  | none => (true, (key, value) :: m)

/-- The call `index.erase(iter)` for the iterator that `find(key)` returned. -/
def erase (m : UnorderedMap) (key : Nat) : UnorderedMap :=
  List.eraseP (fun e => decide (e.1 = key)) m

end UnorderedMap

/-- The class `GeneratedTransactionsIndex`. -/
structure GeneratedTransactionsIndex where
  /-- The member `index`, from block height to the number of transactions
  generated up to and including this block. -/
  index : UnorderedMap
  /-- The member `lastGeneratedTxNumber`, a `uint64_t`. -/
  lastGeneratedTxNumber : Nat
  /-- The member `enabled`. -/
  enabled : Bool
deriving DecidableEq, Repr

namespace GeneratedTransactionsIndex

/-- The constructor `GeneratedTransactionsIndex(bool _enabled)`. -/
def construct (_enabled : Bool) : GeneratedTransactionsIndex :=
  ⟨[], 0, _enabled⟩

/-- The method `GeneratedTransactionsIndex::add`; the sum is computed in
`uint64_t`. -/
def add (self : GeneratedTransactionsIndex) (block : Block) :
    Except String (Bool × GeneratedTransactionsIndex) :=
  if !self.enabled then
    pure (false, self)
  else
    match baseInputBlockIndex block with
    | Except.error e => throw e
    | Except.ok blockHeight =>
      if self.index.length ≠ blockHeight then
        pure (false, self)
      else
        let r := self.index.emplace blockHeight
          ((self.lastGeneratedTxNumber + block.transactionHashes.length + 1) % 2 ^ 64)
        let status := r.1
        if status then
          pure (status, { self with
            index := r.2
            lastGeneratedTxNumber :=
              (self.lastGeneratedTxNumber + block.transactionHashes.length + 1) % 2 ^ 64 })
        else
          pure (status, { self with index := r.2 })

/-- The method `GeneratedTransactionsIndex::remove`; `index.size() - 1` is
computed in the 64-bit `size_t`, a failed `assert` is reported as an error. -/
def remove (self : GeneratedTransactionsIndex) (block : Block) :
    Except String (Bool × GeneratedTransactionsIndex) :=
  if !self.enabled then
    pure (false, self)
  else
    match baseInputBlockIndex block with
    | Except.error e => throw e
    | Except.ok blockHeight =>
      if blockHeight ≠ (self.index.length + 2 ^ 64 - 1) % 2 ^ 64 then
        pure (false, self)
      else
        match self.index.find blockHeight with
        | none => throw "assertion failed: iter != index.end()"
        | some _ =>
          let index := self.index.erase blockHeight
          if blockHeight ≠ 0 then
            match UnorderedMap.find index (blockHeight - 1) with
            | none => throw "assertion failed: iter != index.end()"
            | some value => pure (true, { self with index := index, lastGeneratedTxNumber := value })
          else
            pure (true, { self with index := index, lastGeneratedTxNumber := 0 })

/-- The method `GeneratedTransactionsIndex::find`; `height` is a `uint32_t`,
`generatedTransactions` the reference parameter as it is on entry. Returns the
flag and `generatedTransactions` after the call. -/
def find (self : GeneratedTransactionsIndex) (height : Nat) (generatedTransactions : Nat) :
    Except String (Bool × Nat) :=
  if !self.enabled then
    throw "Generated transactions index disabled."
  else if height > 4294967295 then
    pure (false, generatedTransactions)
  else
    match self.index.find height with
    | none => pure (false, generatedTransactions)
    | some value => pure (true, value)

/-- The method `GeneratedTransactionsIndex::clear`. -/
def clear (self : GeneratedTransactionsIndex) : GeneratedTransactionsIndex :=
  if self.enabled then { self with index := [] } else self

/-- The index after a call; a call that throws leaves the index as it was
before the call. -/
def call (self : GeneratedTransactionsIndex) : IndexCall Block → GeneratedTransactionsIndex
  | IndexCall.add block =>
    match self.add block with
    | Except.ok r => r.2
    | Except.error _ => self
  | IndexCall.remove block =>
    match self.remove block with
    | Except.ok r => r.2
    | Except.error _ => self
  | IndexCall.clear => self.clear

/-- The calls `add(b)` for the blocks of a list, one after the other: the
returned flags in order and the index after the last call. An exception ends
the sequence. -/
def addAll (self : GeneratedTransactionsIndex) (blocks : List Block) :
    Except String (List Bool × GeneratedTransactionsIndex) :=
  blocks.foldl
    (fun acc block =>
      match acc with
      | Except.error e => Except.error e
      | Except.ok done =>
        match done.2.add block with
        | Except.error e => Except.error e
        | Except.ok r => Except.ok (done.1 ++ [r.1], r.2))
    (Except.ok ([], self))

/-- The invariant of claim C17: the stored heights are exactly `0 .. n-1` for
`n` the size of the index, and `lastGeneratedTxNumber` is the value stored at
height `n-1`, or 0 when the index is empty. -/
def Invariant (self : GeneratedTransactionsIndex) : Prop :=
  List.Perm (self.index.map Prod.fst) (List.range self.index.length) ∧
  ((self.index.length = 0 ∧ self.lastGeneratedTxNumber = 0) ∨
    (0 < self.index.length ∧
      self.index.find (self.index.length - 1) = some self.lastGeneratedTxNumber))

instance (self : GeneratedTransactionsIndex) : Decidable (Invariant self) := by
  unfold Invariant
  infer_instance

end GeneratedTransactionsIndex

/-! ## The orphan blocks index and the payment id index -/

/-- Contents of a `std::unordered_multimap` from a number (a block height, or
a payment id) to a hash. The iteration order is unspecified; entries with the
same key are met in the order of the list. -/
abbrev UnorderedMultimap := List (Nat × Hash)

namespace UnorderedMultimap

/-- The entries of `index.equal_range(key)`, in iteration order. -/
def equal_range (m : UnorderedMultimap) (key : Nat) : List (Nat × Hash) :=
  m.filter (fun e => decide (e.1 = key))

/-- The loop of `remove`,
`for (auto iter = range.first; iter != range.second; ++iter)
 if (iter->second == hash) { index.erase(iter); return true; }`
over the entries with the given key: the index after `erase`, or `none` when
the loop ends without finding the hash. -/
def removeFirst (key : Nat) (hash : Hash) : UnorderedMultimap → Option UnorderedMultimap
  | [] => none
  | e :: rest =>
    if e.1 = key then
      if e.2 = hash then some rest
      else (removeFirst key hash rest).map (fun index => e :: index)
    else
      (removeFirst key hash rest).map (fun index => e :: index)

end UnorderedMultimap

/-- The class `OrphanBlocksIndex`: the `enabled` flag and the multimap `index`
from block height to block hash. -/
structure OrphanBlocksIndex where
  /-- The member `enabled`. -/
  enabled : Bool
  /-- The member `index`. -/
  index : UnorderedMultimap
deriving DecidableEq, Repr

namespace OrphanBlocksIndex

/-- The constructor `OrphanBlocksIndex(bool _enabled)`. -/
def construct (_enabled : Bool) : OrphanBlocksIndex :=
  ⟨_enabled, []⟩

/-- The method `OrphanBlocksIndex::add`; the function `get_block_hash`, which
is not among the sources, is a parameter. -/
def add (get_block_hash : Block → Hash) (self : OrphanBlocksIndex) (block : Block) :
    Except String (Bool × OrphanBlocksIndex) :=
  if !self.enabled then
    pure (false, self)
  else
    let blockHash := get_block_hash block
    match baseInputBlockIndex block with
    | Except.error e => throw e
    | Except.ok blockHeight =>
      pure (true, { self with index := (blockHeight, blockHash) :: self.index })

/-- The method `OrphanBlocksIndex::remove`. -/
def remove (get_block_hash : Block → Hash) (self : OrphanBlocksIndex) (block : Block) :
    Except String (Bool × OrphanBlocksIndex) :=
  if !self.enabled then
    pure (false, self)
  else
    let blockHash := get_block_hash block
    match baseInputBlockIndex block with
    | Except.error e => throw e
    | Except.ok blockHeight =>
      match UnorderedMultimap.removeFirst blockHeight blockHash self.index with
      | some index => pure (true, { self with index := index })
      | none => pure (false, self)

/-- The method `OrphanBlocksIndex::find`; returns the flag and `blockHashes`
after the call. -/
def find (self : OrphanBlocksIndex) (height : Nat) (blockHashes : List Hash) :
    Except String (Bool × List Hash) :=
  if !self.enabled then
    throw "Orphan blocks index disabled."
  else if height > 4294967295 then
    pure (false, blockHashes)
  else
    let range := UnorderedMultimap.equal_range self.index height
    pure (!range.isEmpty, blockHashes ++ range.map Prod.snd)

/-- The method `OrphanBlocksIndex::clear`. -/
def clear (self : OrphanBlocksIndex) : OrphanBlocksIndex :=
  if self.enabled then { self with index := [] } else self

/-- The index after a call; a call that throws leaves the index as it was. -/
def call (get_block_hash : Block → Hash) (self : OrphanBlocksIndex) :
    IndexCall Block → OrphanBlocksIndex
  | IndexCall.add block =>
    match self.add get_block_hash block with
    | Except.ok r => r.2
    | Except.error _ => self
  | IndexCall.remove block =>
    match self.remove get_block_hash block with
    | Except.ok r => r.2
    | Except.error _ => self
  | IndexCall.clear => self.clear

end OrphanBlocksIndex

/-- The class `PaymentIdIndex`: the `enabled` flag and the multimap `index`
from payment id to transaction hash. -/
structure PaymentIdIndex where
  /-- The member `enabled`. -/
  enabled : Bool
  /-- The member `index`. -/
  index : UnorderedMultimap
deriving DecidableEq, Repr

namespace PaymentIdIndex

/-- The constructor `PaymentIdIndex(bool _enabled)`. -/
def construct (_enabled : Bool) : PaymentIdIndex :=
  ⟨_enabled, []⟩

/-- The method `PaymentIdIndex::add`. The functions `getObjectHash` and
`BlockchainExplorerDataBuilder::getPaymentId`, which are not among the
sources, are parameters; `getPaymentId` gives `none` where the source
returns `false`. -/
def add (getObjectHash : Transaction → Hash) (getPaymentId : Transaction → Option Hash)
    (self : PaymentIdIndex) (transaction : Transaction) : Bool × PaymentIdIndex :=
  if !self.enabled then
    (false, self)
  else
    let transactionHash := getObjectHash transaction
    match getPaymentId transaction with
    | none => (false, self)
    | some paymentId => (true, { self with index := (paymentId, transactionHash) :: self.index })

/-- The method `PaymentIdIndex::remove`. -/
def remove (getObjectHash : Transaction → Hash) (getPaymentId : Transaction → Option Hash)
    (self : PaymentIdIndex) (transaction : Transaction) : Bool × PaymentIdIndex :=
  if !self.enabled then
    (false, self)
  else
    let transactionHash := getObjectHash transaction
    match getPaymentId transaction with
    | none => (false, self)
    | some paymentId =>
      match UnorderedMultimap.removeFirst paymentId transactionHash self.index with
      | some index => (true, { self with index := index })
      | none => (false, self)

/-- The method `bool PaymentIdIndex::find(paymentId, transactionHashes)`;
returns the flag and `transactionHashes` after the call. -/
def find (self : PaymentIdIndex) (paymentId : Hash) (transactionHashes : List Hash) :
    Except String (Bool × List Hash) :=
  if !self.enabled then
    throw "Payment id index disabled."
  else
    let range := UnorderedMultimap.equal_range self.index paymentId
    pure (!range.isEmpty, transactionHashes ++ range.map Prod.snd)

/-- The method `std::vector<Crypto::Hash> PaymentIdIndex::find(paymentId)`. -/
def findHashes (self : PaymentIdIndex) (paymentId : Hash) : Except String (List Hash) :=
  if !self.enabled then
    throw "Payment id index disabled."
  else
    pure ((UnorderedMultimap.equal_range self.index paymentId).map Prod.snd)

/-- The method `PaymentIdIndex::clear`. -/
def clear (self : PaymentIdIndex) : PaymentIdIndex :=
  if self.enabled then { self with index := [] } else self

/-- The index after a call. -/
def call (getObjectHash : Transaction → Hash) (getPaymentId : Transaction → Option Hash)
    (self : PaymentIdIndex) : IndexCall Transaction → PaymentIdIndex
  | IndexCall.add transaction => (self.add getObjectHash getPaymentId transaction).2
  | IndexCall.remove transaction => (self.remove getObjectHash getPaymentId transaction).2
  | IndexCall.clear => self.clear

end PaymentIdIndex

/-- The number of transactions that the blocks of a list generate: for each
block its transaction hashes and the miner transaction. -/
def generatedSum (blocks : List Block) : Nat :=
  (blocks.map (fun block => block.transactionHashes.length + 1)).sum

/-- What it means that `after` is `before` with exactly one occurrence of
`pair` removed: the first occurrence is gone, so `pair` occurs once less, and
every other entry occurs as often as before. -/
def ErasedOne (before : List (Nat × Hash)) (pair : Nat × Hash) (after : List (Nat × Hash)) :
    Prop :=
  after = before.erase pair ∧
  after.count pair + 1 = before.count pair ∧
  ∀ e, e ≠ pair → after.count e = before.count e

/-- The member `blockIndex` of a `BaseInput` is a `uint32_t`: whether the
height that `add` and `remove` read from a block, when there is one, is below
`2^32`. -/
def blockIndexFits (block : Block) : Bool :=
  match baseInputBlockIndex block with
  | Except.ok blockIndex => decide (blockIndex < 2 ^ 32)
  | Except.error _ => true

namespace GeneratedTransactionsIndex

/-- Whether the block that a call passes, if it passes one, has a `blockIndex`
that fits its `uint32_t` type. -/
def callFits : IndexCall Block → Bool
  | IndexCall.add block => blockIndexFits block
  | IndexCall.remove block => blockIndexFits block
  | IndexCall.clear => true

/-- What holds of an enabled index in every state that `add`, `remove` and
`clear` lead to from a fresh index: it is enabled, the stored heights are
exactly `0 .. n-1` for `n` the size of the index, and, the heights being
`uint32_t` values, `n` is at most `2^32`. -/
def HeightsInvariant (self : GeneratedTransactionsIndex) : Prop :=
  self.enabled = true ∧
  List.Perm (self.index.map Prod.fst) (List.range self.index.length) ∧
  self.index.length ≤ 2 ^ 32

end GeneratedTransactionsIndex

/-! ## The sorted transactions model (`WalletGui/gui/SortedTransactionsModel.cpp`) -/

namespace WalletGui

/-- What `lessThan` observes of a `QDateTime`: `isNull()`, `isValid()`, and the
point in time, in milliseconds since the epoch, that `operator<` of the Qt
library compares. -/
structure QDateTime where
  /-- The result of `isNull()`. -/
  isNull : Bool
  /-- The result of `isValid()`. -/
  isValid : Bool
  /-- The result of `toMSecsSinceEpoch()`. -/
  toMSecsSinceEpoch : Int
deriving DecidableEq, Repr

/-- What `lessThan` observes of a `QModelIndex`: `row()`, and the date that
`data(TransactionsModel::ROLE_DATE).toDateTime()` gives. -/
structure QModelIndex where
  /-- The result of `row()`. -/
  row : Int
  /-- The result of `data(TransactionsModel::ROLE_DATE).toDateTime()`. -/
  date : QDateTime
deriving DecidableEq, Repr

/-- The condition `date.isNull() || !date.isValid()`, under which `lessThan`
treats a date as missing. -/
def QDateTime.missing (date : QDateTime) : Bool :=
  date.isNull || !date.isValid

namespace SortedTransactionsModel

/-- The method `SortedTransactionsModel::lessThan`. -/
def lessThan (_left _right : QModelIndex) : Bool :=
  let leftDate := _left.date
  let rightDate := _right.date
  if (rightDate.isNull || !rightDate.isValid) && (leftDate.isNull || !leftDate.isValid) then
    decide (_left.row < _right.row)
  else if leftDate.isNull || !leftDate.isValid then
    false
  else if rightDate.isNull || !rightDate.isValid then
    true
  else
    decide (leftDate.toMSecsSinceEpoch < rightDate.toMSecsSinceEpoch)

end SortedTransactionsModel

end WalletGui

/-! ## Bounds and ranges of an ordered multimap -/

namespace Multimap

theorem lower_bound_nil (key : Nat) : lower_bound [] key = 0 := rfl

theorem upper_bound_nil (key : Nat) : upper_bound [] key = 0 := rfl

theorem lower_bound_cons (e : Nat × Hash) (m : Multimap) (key : Nat) :
    lower_bound (e :: m) key = if e.1 < key then lower_bound m key + 1 else 0 := by
  unfold lower_bound
  by_cases h : e.1 < key <;> simp [List.takeWhile_cons, h]

theorem upper_bound_cons (e : Nat × Hash) (m : Multimap) (key : Nat) :
    upper_bound (e :: m) key = if e.1 ≤ key then upper_bound m key + 1 else 0 := by
  unfold upper_bound
  by_cases h : e.1 ≤ key <;> simp [List.takeWhile_cons, h]

theorem upper_bound_le_length (m : Multimap) (key : Nat) :
    upper_bound m key ≤ m.length := by
  induction m with
  | nil => simp [upper_bound_nil]
  | cons e m ih =>
    rw [upper_bound_cons]
    simp only [List.length_cons]
    split
    · omega
    · omega

theorem ordered_nil : Ordered [] := List.Pairwise.nil

theorem ordered_cons {e : Nat × Hash} {m : Multimap} :
    Ordered (e :: m) ↔ (∀ x ∈ m, e.1 ≤ x.1) ∧ Ordered m := by
  unfold Ordered
  exact List.pairwise_cons

theorem ordered_replicate (n : Nat) (e : Nat × Hash) : Ordered (List.replicate n e) := by
  unfold Ordered
  simp

/-- The insertion done by `emplace` keeps the keys in non-decreasing order. -/
theorem ordered_emplace {m : Multimap} (h : Ordered m) (key : Nat) (hash : Hash) :
    Ordered (emplace m key hash) := by
  induction m with
  | nil => simp [emplace, Ordered]
  | cons e m ih =>
    obtain ⟨h1, h2⟩ := ordered_cons.mp h
    by_cases hk : e.1 ≤ key
    · have hstep : emplace (e :: m) key hash = e :: emplace m key hash := by
        simp [emplace, hk]
      rw [hstep, ordered_cons]
      refine ⟨?_, ih h2⟩
      intro x hx
      simp only [emplace, List.mem_append, List.mem_cons] at hx
      rcases hx with hx | hx | hx
      · exact h1 x ((List.takeWhile_sublist _).subset hx)
      · subst hx
        exact hk
      · exact h1 x ((List.dropWhile_sublist _).subset hx)
    · have hstep : emplace (e :: m) key hash = (key, hash) :: e :: m := by
        simp [emplace, hk]
      rw [hstep, ordered_cons]
      refine ⟨?_, h⟩
      intro x hx
      simp only [List.mem_cons] at hx
      have hke : key ≤ e.1 := by omega
      rcases hx with hx | hx
      · subst hx
        exact hke
      · exact le_trans hke (h1 x hx)

end Multimap

/-- In an ordered multimap whose keys are all at least `tb`, the entries up to
the upper bound of `te` are the entries within `[tb, te]`. -/
theorem take_upper_bound_eq_entriesWithin (m : Multimap) (tb te : Nat)
    (hm : Multimap.Ordered m) (hge : ∀ x ∈ m, tb ≤ x.1) :
    m.take (Multimap.upper_bound m te) = entriesWithin m tb te := by
  induction m with
  | nil => simp [entriesWithin]
  | cons e m ih =>
    obtain ⟨h1, h2⟩ := Multimap.ordered_cons.mp hm
    have hge' : ∀ x ∈ m, tb ≤ x.1 := fun x hx => hge x (List.mem_cons_of_mem _ hx)
    have he : tb ≤ e.1 := hge e (List.mem_cons_self _ _)
    rw [Multimap.upper_bound_cons]
    by_cases hk : e.1 ≤ te
    · have := ih h2 hge'
      simp only [hk, if_true, List.take_succ_cons, this]
      simp [entriesWithin, List.filter_cons, he, hk]
    · simp only [hk, if_false, List.take_zero]
      symm
      unfold entriesWithin
      rw [List.filter_eq_nil_iff]
      intro x hx
      simp only [List.mem_cons] at hx
      rcases hx with hx | hx
      · subst hx
        simp [hk]
      · have := h1 x hx
        simp
        omega

/-- The entries between `lower_bound(tb)` and `upper_bound(te)` of an ordered
multimap are exactly the entries with timestamp in `[tb, te]`, and the lower
bound does not lie after the upper bound. -/
theorem range_eq_entriesWithin (m : Multimap) (tb te : Nat)
    (hm : Multimap.Ordered m) (hle : tb ≤ te) :
    Multimap.lower_bound m tb ≤ Multimap.upper_bound m te ∧
    (m.drop (Multimap.lower_bound m tb)).take
        (Multimap.upper_bound m te - Multimap.lower_bound m tb) = entriesWithin m tb te := by
  induction m with
  | nil => simp [Multimap.lower_bound_nil, Multimap.upper_bound_nil, entriesWithin]
  | cons e m ih =>
    obtain ⟨h1, h2⟩ := Multimap.ordered_cons.mp hm
    by_cases hk : e.1 < tb
    · have hk' : e.1 ≤ te := by omega
      obtain ⟨ih1, ih2⟩ := ih h2
      rw [Multimap.lower_bound_cons, Multimap.upper_bound_cons]
      simp only [hk, hk', if_true, List.drop_succ_cons]
      refine ⟨by omega, ?_⟩
      have hsub : Multimap.upper_bound m te + 1 - (Multimap.lower_bound m tb + 1) =
          Multimap.upper_bound m te - Multimap.lower_bound m tb := by omega
      rw [hsub, ih2]
      have hnot : ¬ tb ≤ e.1 := by omega
      simp [entriesWithin, List.filter_cons, hnot]
    · have hge : ∀ x ∈ e :: m, tb ≤ x.1 := by
        intro x hx
        simp only [List.mem_cons] at hx
        rcases hx with hx | hx
        · subst hx
          omega
        · have := h1 x hx
          omega
      rw [Multimap.lower_bound_cons]
      simp only [hk, if_false, List.drop_zero, Nat.sub_zero, Nat.zero_le, true_and]
      exact take_upper_bound_eq_entriesWithin (e :: m) tb te hm hge

/-- Number of entries between the two bounds. -/
theorem bounds_distance (m : Multimap) (tb te : Nat)
    (hm : Multimap.Ordered m) (hle : tb ≤ te) :
    Multimap.upper_bound m te - Multimap.lower_bound m tb = (entriesWithin m tb te).length := by
  obtain ⟨h1, h2⟩ := range_eq_entriesWithin m tb te hm hle
  have hlen := congrArg List.length h2
  have hub := Multimap.upper_bound_le_length m te
  simp only [List.length_take, List.length_drop] at hlen
  omega

/-- The cast of a non-negative distance keeps its low 32 bits. -/
theorem static_cast_uint32_distance (first last : Nat) (h : first ≤ last) :
    static_cast_uint32 (distance first last) = (last - first) % 2 ^ 32 := by
  unfold static_cast_uint32 distance
  omega

/-! ## The copying loop -/

/-- As long as the `uint32_t` counter cannot wrap (the limit fits 32 bits, or
fewer than `2^32` entries remain to be counted), the loop copies the hashes of
the first `hashesNumberLimit - hashesNumber` entries before `end_`. -/
theorem findLoop_eq (end_ limit : Nat) (l : List (Nat × Hash)) :
    ∀ (iter n : Nat) (hs : List Hash), iter ≤ end_ → end_ - iter ≤ l.length →
      (limit < 2 ^ 32 ∨ n + (end_ - iter) < 2 ^ 32) →
      findLoop end_ limit l iter n hs =
        (n + min (limit - n) (end_ - iter),
          hs ++ ((l.take (end_ - iter)).take (limit - n)).map Prod.snd) := by
  induction l with
  | nil =>
    intro iter n hs _ h2 _
    simp only [List.length_nil, Nat.le_zero] at h2
    simp [findLoop, h2]
  | cons e rest ih =>
    intro iter n hs h1 h2 hw
    simp only [List.length_cons] at h2
    unfold findLoop
    by_cases hc : iter ≠ end_ ∧ n < limit
    · obtain ⟨hc1, hc2⟩ := hc
      have hlt : iter < end_ := by omega
      have hmod : (n + 1) % 2 ^ 32 = n + 1 := by
        apply Nat.mod_eq_of_lt
        rcases hw with hw | hw <;> omega
      have he : end_ - iter = (end_ - (iter + 1)) + 1 := by omega
      have hl : limit - n = (limit - (n + 1)) + 1 := by omega
      have hw' : limit < 2 ^ 32 ∨ (n + 1) + (end_ - (iter + 1)) < 2 ^ 32 := by
        rcases hw with hw | hw
        · exact Or.inl hw
        · exact Or.inr (by omega)
      rw [if_pos ⟨hc1, hc2⟩, hmod, ih (iter + 1) (n + 1) (hs ++ [e.2]) (by omega) (by omega) hw']
      rw [he, hl]
      simp only [List.take_succ_cons, List.map_cons, List.append_assoc, List.singleton_append]
      congr 1
      omega
    · rw [if_neg hc]
      have hz : limit - n = 0 ∨ end_ - iter = 0 := by
        by_cases hi : iter = end_
        · right
          omega
        · left
          have : ¬ n < limit := fun hn => hc ⟨hi, hn⟩
          omega
      rcases hz with hz | hz <;> simp [hz]

/-- Both timestamp `find` methods run the same statements after the `enabled`
check. This is their common value on an ordered index and a range with
`tb ≤ te`, as long as the `uint32_t` counter cannot wrap. -/
theorem find_body_eq (m : Multimap) (tb te limit : Nat) (hs : List Hash)
    (hm : Multimap.Ordered m) (hle : tb ≤ te)
    (hw : limit < 2 ^ 32 ∨ (entriesWithin m tb te).length < 2 ^ 32) :
    findLoop (Multimap.upper_bound m te) limit (m.drop (Multimap.lower_bound m tb))
        (Multimap.lower_bound m tb) 0 hs =
      (min limit (entriesWithin m tb te).length,
        hs ++ ((entriesWithin m tb te).take limit).map Prod.snd) ∧
    static_cast_uint32 (distance (Multimap.lower_bound m tb) (Multimap.upper_bound m te)) =
      (entriesWithin m tb te).length % 2 ^ 32 := by
  obtain ⟨hb, hseg⟩ := range_eq_entriesWithin m tb te hm hle
  have hd := bounds_distance m tb te hm hle
  have hub := Multimap.upper_bound_le_length m te
  constructor
  · rw [findLoop_eq _ _ _ _ _ _ hb (by simp only [List.length_drop]; omega)
      (by rw [hd]; simpa using hw)]
    rw [hseg, hd]
    simp
  · rw [static_cast_uint32_distance _ _ hb, hd]

/-- With a 64-bit limit of at least `2^32` the test `hashesNumber < limit` never
stops the loop: every entry before `end_` is copied and the counter is reduced
modulo `2^32`. -/
theorem findLoop_unbounded (end_ limit : Nat) (hlim : 2 ^ 32 ≤ limit) (l : List (Nat × Hash)) :
    ∀ (iter n : Nat) (hs : List Hash), iter ≤ end_ → end_ - iter ≤ l.length → n < 2 ^ 32 →
      findLoop end_ limit l iter n hs =
        ((n + (end_ - iter)) % 2 ^ 32, hs ++ (l.take (end_ - iter)).map Prod.snd) := by
  induction l with
  | nil =>
    intro iter n hs _ h2 hn
    simp only [List.length_nil, Nat.le_zero] at h2
    simp only [findLoop, h2, Nat.add_zero, List.take_zero, List.map_nil, List.append_nil]
    rw [Nat.mod_eq_of_lt hn]
  | cons e rest ih =>
    intro iter n hs h1 h2 hn
    have hmod : n % 2 ^ 32 = n := Nat.mod_eq_of_lt hn
    simp only [List.length_cons] at h2
    unfold findLoop
    by_cases hi : iter = end_
    · have hc : ¬ (iter ≠ end_ ∧ n < limit) := fun h => h.1 hi
      rw [if_neg hc]
      subst hi
      simp only [Nat.sub_self, Nat.add_zero, List.take_zero, List.map_nil, List.append_nil, hmod]
    · have hc : iter ≠ end_ ∧ n < limit := ⟨hi, by omega⟩
      have he : end_ - iter = (end_ - (iter + 1)) + 1 := by omega
      rw [if_pos hc, ih (iter + 1) ((n + 1) % 2 ^ 32) (hs ++ [e.2]) (by omega) (by omega)
        (Nat.mod_lt _ (by norm_num))]
      rw [he]
      simp only [List.take_succ_cons, List.map_cons, List.append_assoc, List.singleton_append]
      congr 1
      omega

namespace TimestampBlocksIndex

/-- Value of `find` on an enabled, ordered index for a range with
`timestampBegin ≤ timestampEnd`. -/
theorem blocks_find_eq (self : TimestampBlocksIndex) (tb te limit : Nat) (hs : List Hash) (c : Nat)
    (hen : self.enabled = true) (hm : Multimap.Ordered self.index) (hle : tb ≤ te)
    (hw : limit < 2 ^ 32 ∨ (entriesWithin self.index tb te).length < 2 ^ 32) :
    self.find tb te limit hs c = Except.ok
      ⟨decide (0 < min limit (entriesWithin self.index tb te).length),
        hs ++ ((entriesWithin self.index tb te).take limit).map Prod.snd,
        (entriesWithin self.index tb te).length % 2 ^ 32⟩ := by
  obtain ⟨h1, h2⟩ := find_body_eq self.index tb te limit hs hm hle hw
  have hnot : ¬ tb > te := by omega
  simp only [find, hen, Bool.not_true, Bool.false_eq_true, if_false, hnot, h1, h2]
  rfl

end TimestampBlocksIndex

namespace TimestampTransactionsIndex

/-- Value of `find` on an enabled, ordered index for a range with
`timestampBegin ≤ timestampEnd`, when the counter cannot wrap. -/
theorem transactions_find_eq (self : TimestampTransactionsIndex) (tb te limit : Nat) (hs : List Hash)
    (c : Nat) (hen : self.enabled = true) (hm : Multimap.Ordered self.index) (hle : tb ≤ te)
    (hw : limit < 2 ^ 32 ∨ (entriesWithin self.index tb te).length < 2 ^ 32) :
    self.find tb te limit hs c = Except.ok
      ⟨decide (0 < min limit (entriesWithin self.index tb te).length),
        hs ++ ((entriesWithin self.index tb te).take limit).map Prod.snd,
        (entriesWithin self.index tb te).length % 2 ^ 32⟩ := by
  obtain ⟨h1, h2⟩ := find_body_eq self.index tb te limit hs hm hle hw
  have hnot : ¬ tb > te := by omega
  simp only [find, hen, Bool.not_true, Bool.false_eq_true, if_false, hnot, h1, h2]
  rfl

end TimestampTransactionsIndex

/-! ## Timestamp range queries -/

/-- The entries within a range of a multimap that holds one entry `n` times. -/
theorem entriesWithin_replicate (n : Nat) (e : Nat × Hash) (tb te : Nat)
    (h : tb ≤ e.1 ∧ e.1 ≤ te) :
    entriesWithin (List.replicate n e) tb te = List.replicate n e := by
  unfold entriesWithin
  rw [List.filter_replicate_of_pos]
  simpa using h

/-- Value of `find` on an index that holds one entry `n` times, for a range
around its timestamp. -/
theorem TimestampBlocksIndex.find_replicate (n : Nat) (e : Nat × Hash)
    (tb te limit : Nat) (hs : List Hash) (c : Nat) (h : tb ≤ e.1 ∧ e.1 ≤ te)
    (hw : limit < 2 ^ 32 ∨ n < 2 ^ 32) :
    TimestampBlocksIndex.find ⟨true, List.replicate n e⟩ tb te limit hs c =
      Except.ok ⟨decide (0 < min limit n), hs ++ List.replicate (min limit n) e.2,
        n % 2 ^ 32⟩ := by
  have hE := entriesWithin_replicate n e tb te h
  have hf := TimestampBlocksIndex.blocks_find_eq ⟨true, List.replicate n e⟩ tb te limit hs c
    rfl (Multimap.ordered_replicate _ _) (by omega)
    (by simpa only [hE, List.length_replicate] using hw)
  simp only [hE, List.length_replicate, List.take_replicate, List.map_replicate] at hf
  exact hf

/-- Claim C1 (as amended): on an enabled `TimestampBlocksIndex` with ordered
index, a range with `timestampBegin ≤ timestampEnd`, a 32-bit limit and an
empty output list, the reported count is at least the length of the returned
list provided fewer than `2^32` entries lie in the range, and the two are
equal whenever the limit exceeds the number of entries in the range. -/
theorem TimestampBlocksIndex.find_count_ge_length (self : TimestampBlocksIndex)
    (timestampBegin timestampEnd hashesNumberLimit c : Nat)
    (hen : self.enabled = true) (hm : Multimap.Ordered self.index)
    (hle : timestampBegin ≤ timestampEnd) (hlim : hashesNumberLimit < 2 ^ 32) :
    ∃ r, self.find timestampBegin timestampEnd hashesNumberLimit [] c = Except.ok r ∧
      ((entriesWithin self.index timestampBegin timestampEnd).length < 2 ^ 32 →
        r.hashes.length ≤ r.hashesNumberWithinTimestamps) ∧
      ((entriesWithin self.index timestampBegin timestampEnd).length < hashesNumberLimit →
        r.hashesNumberWithinTimestamps = r.hashes.length) := by
  refine ⟨_, TimestampBlocksIndex.blocks_find_eq self timestampBegin timestampEnd hashesNumberLimit [] c
    hen hm hle (Or.inl hlim), ?_, ?_⟩
  · intro hN
    simp only [List.nil_append, List.length_map, List.length_take]
    rw [Nat.mod_eq_of_lt hN]
    exact Nat.min_le_right _ _
  · intro hN
    simp only [List.nil_append, List.length_map, List.length_take]
    rw [Nat.mod_eq_of_lt (by omega)]
    omega

/-- Witness for claim C1 (as amended): an index of five blocks and the range
`[3, 5]`, which holds three of them, once with the limit 2 and once with the
limit 9. -/
theorem TimestampBlocksIndex.find_count_ge_length_witness :
    (∃ r, TimestampBlocksIndex.find ⟨true, [(1, 10), (3, 30), (3, 31), (5, 50), (7, 70)]⟩
        3 5 2 [] 0 = Except.ok r ∧ r.hashes.length ≤ r.hashesNumberWithinTimestamps) ∧
    (∃ r, TimestampBlocksIndex.find ⟨true, [(1, 10), (3, 30), (3, 31), (5, 50), (7, 70)]⟩
        3 5 9 [] 0 = Except.ok r ∧ r.hashesNumberWithinTimestamps = r.hashes.length) := by
  constructor
  · obtain ⟨r, h, h1, _⟩ := TimestampBlocksIndex.find_count_ge_length
      ⟨true, [(1, 10), (3, 30), (3, 31), (5, 50), (7, 70)]⟩ 3 5 2 0 rfl (by decide) (by decide)
      (by decide)
    exact ⟨r, h, h1 (by decide)⟩
  · obtain ⟨r, h, _, h2⟩ := TimestampBlocksIndex.find_count_ge_length
      ⟨true, [(1, 10), (3, 30), (3, 31), (5, 50), (7, 70)]⟩ 3 5 9 0 rfl (by decide) (by decide)
      (by decide)
    exact ⟨r, h, h2 (by decide)⟩

/-- Claim C1 fails as stated: with `2^32` blocks of timestamp 0 in the index,
the range `[0, 0]` and the limit 1, `find` returns one hash and reports the
count 0, the low 32 bits of `2^32`. -/
theorem TimestampBlocksIndex.find_count_lt_length_counterexample :
    Multimap.Ordered (List.replicate 4294967296 ((0, 0) : Nat × Hash)) ∧
    (0 : Nat) ≤ 0 ∧ (1 : Nat) < 2 ^ 32 ∧
    ∃ r, TimestampBlocksIndex.find ⟨true, List.replicate 4294967296 (0, 0)⟩ 0 0 1 [] 0
        = Except.ok r ∧
      r.hashes = [0] ∧ r.hashesNumberWithinTimestamps = 0 ∧
      ¬ (r.hashes.length ≤ r.hashesNumberWithinTimestamps) := by
  have h := TimestampBlocksIndex.find_replicate 4294967296 (0, 0) 0 0 1 [] 0
    ⟨Nat.le_refl 0, Nat.le_refl 0⟩ (Or.inl (by norm_num))
  have h1 : min 1 4294967296 = 1 := by decide
  have h2 : 4294967296 % 2 ^ 32 = 0 := by norm_num
  rw [h1, h2] at h
  exact ⟨Multimap.ordered_replicate _ _, Nat.le_refl 0, by norm_num, _, h, rfl, rfl, by simp⟩

/-- Claim C2: on an enabled `TimestampBlocksIndex` and an enabled
`TimestampTransactionsIndex`, whatever the index holds and whatever the limit,
`find` with `timestampBegin > timestampEnd` returns `false` without throwing,
leaves `hashes` as it was and leaves the count output as it was. -/
theorem find_inverted_range (blocks : TimestampBlocksIndex)
    (transactions : TimestampTransactionsIndex)
    (timestampBegin timestampEnd hashesNumberLimit : Nat) (hashes : List Hash) (c : Nat)
    (hb : blocks.enabled = true) (ht : transactions.enabled = true)
    (hinv : timestampBegin > timestampEnd) :
    blocks.find timestampBegin timestampEnd hashesNumberLimit hashes c =
        Except.ok ⟨false, hashes, c⟩ ∧
    transactions.find timestampBegin timestampEnd hashesNumberLimit hashes c =
        Except.ok ⟨false, hashes, c⟩ := by
  constructor
  · simp only [TimestampBlocksIndex.find, hb, Bool.not_true, Bool.false_eq_true, if_false,
      hinv, if_true]
    rfl
  · simp only [TimestampTransactionsIndex.find, ht, Bool.not_true, Bool.false_eq_true,
      if_false, hinv, if_true]
    rfl

/-- Witness for claim C2: the inverted range `[6, 5]` on two non-empty
indices. -/
theorem find_inverted_range_witness :
    TimestampBlocksIndex.find ⟨true, [(1, 10), (5, 50), (6, 60)]⟩ 6 5 4 [99] 17 =
        Except.ok ⟨false, [99], 17⟩ ∧
    TimestampTransactionsIndex.find ⟨true, [(5, 51), (6, 61)]⟩ 6 5 4 [99] 17 =
        Except.ok ⟨false, [99], 17⟩ :=
  find_inverted_range ⟨true, [(1, 10), (5, 50), (6, 60)]⟩ ⟨true, [(5, 51), (6, 61)]⟩
    6 5 4 [99] 17 rfl rfl (by decide)

/-- Claim C3: on an enabled `TimestampBlocksIndex` with ordered index and
`timestampBegin ≤ timestampEnd`, with `N` the number of entries in the range,
`find` keeps the old content of `hashes` in front and appends the hashes of the
first `min(hashesNumberLimit, N)` entries of the range in index order; these
entries are in ascending timestamp order and no entry of the range left out
has a smaller timestamp; `find` returns `true` exactly when it appended a
hash, hence `false` when `N = 0` or the limit is 0. -/
theorem TimestampBlocksIndex.find_appends (self : TimestampBlocksIndex)
    (timestampBegin timestampEnd hashesNumberLimit : Nat) (hashes : List Hash) (c : Nat)
    (hen : self.enabled = true) (hm : Multimap.Ordered self.index)
    (hle : timestampBegin ≤ timestampEnd) (hlim : hashesNumberLimit < 2 ^ 32) :
    ∃ r, self.find timestampBegin timestampEnd hashesNumberLimit hashes c = Except.ok r ∧
      r.hashes = hashes ++
        ((entriesWithin self.index timestampBegin timestampEnd).take hashesNumberLimit).map
          Prod.snd ∧
      r.hashes.length = hashes.length +
        min hashesNumberLimit (entriesWithin self.index timestampBegin timestampEnd).length ∧
      List.Pairwise (fun a b => a.1 ≤ b.1)
        ((entriesWithin self.index timestampBegin timestampEnd).take hashesNumberLimit) ∧
      (∀ a ∈ (entriesWithin self.index timestampBegin timestampEnd).take hashesNumberLimit,
        ∀ b ∈ (entriesWithin self.index timestampBegin timestampEnd).drop hashesNumberLimit,
          a.1 ≤ b.1) ∧
      (r.ret = true ↔ hashes.length < r.hashes.length) ∧
      ((entriesWithin self.index timestampBegin timestampEnd).length = 0 ∨
        hashesNumberLimit = 0 → r.ret = false) := by
  have hE : List.Pairwise (fun a b : Nat × Hash => a.1 ≤ b.1)
      (entriesWithin self.index timestampBegin timestampEnd) :=
    List.Pairwise.sublist (List.filter_sublist _) hm
  have hsplit := List.take_append_drop hashesNumberLimit
    (entriesWithin self.index timestampBegin timestampEnd)
  rw [← hsplit, List.pairwise_append] at hE
  refine ⟨_, TimestampBlocksIndex.blocks_find_eq self timestampBegin timestampEnd hashesNumberLimit
    hashes c hen hm hle (Or.inl hlim), rfl, ?_, hE.1, hE.2.2, ?_, ?_⟩
  · simp [List.length_take]
  · simp only [decide_eq_true_eq, List.length_append, List.length_map, List.length_take]
    omega
  · intro h
    simp only [decide_eq_false_iff_not]
    rcases h with h | h <;> simp [h]

/-- Witness for claim C3: five blocks, the range `[3, 5]` holds three of them
and `hashes` already holds one hash; with the limit 2 two hashes are appended,
with the limit 0 none. -/
theorem TimestampBlocksIndex.find_appends_witness :
    (∃ r, TimestampBlocksIndex.find ⟨true, [(1, 10), (3, 30), (3, 31), (5, 50), (7, 70)]⟩
        3 5 2 [99] 0 = Except.ok r ∧ r.hashes = [99, 30, 31] ∧ r.ret = true) ∧
    (∃ r, TimestampBlocksIndex.find ⟨true, [(1, 10), (3, 30), (3, 31), (5, 50), (7, 70)]⟩
        3 5 0 [99] 0 = Except.ok r ∧ r.hashes = [99] ∧ r.ret = false) := by
  constructor
  · obtain ⟨r, h, h1, h2, _, _, h5, _⟩ := TimestampBlocksIndex.find_appends
      ⟨true, [(1, 10), (3, 30), (3, 31), (5, 50), (7, 70)]⟩ 3 5 2 [99] 0 rfl (by decide)
      (by decide) (by decide)
    refine ⟨r, h, h1, h5.mpr ?_⟩
    rw [h2]
    decide
  · obtain ⟨r, h, h1, _, _, _, _, h6⟩ := TimestampBlocksIndex.find_appends
      ⟨true, [(1, 10), (3, 30), (3, 31), (5, 50), (7, 70)]⟩ 3 5 0 [99] 0 rfl (by decide)
      (by decide) (by decide)
    exact ⟨r, h, h1, h6 (Or.inr rfl)⟩

/-- Claim C4: on an enabled `TimestampBlocksIndex` with ordered index of fewer
than `2^32` entries and `timestampBegin ≤ timestampEnd`, the count reported by
`find` is the number of entries with `timestampBegin ≤ t ≤ timestampEnd`, both
bounds included; it is the same for every limit, the limit 0 included. -/
theorem TimestampBlocksIndex.find_count (self : TimestampBlocksIndex)
    (timestampBegin timestampEnd hashesNumberLimit : Nat) (hashes : List Hash) (c : Nat)
    (hen : self.enabled = true) (hm : Multimap.Ordered self.index)
    (hlen : self.index.length < 2 ^ 32) (hle : timestampBegin ≤ timestampEnd) :
    ∃ r r0, self.find timestampBegin timestampEnd hashesNumberLimit hashes c = Except.ok r ∧
      self.find timestampBegin timestampEnd 0 hashes c = Except.ok r0 ∧
      r.hashesNumberWithinTimestamps =
        self.index.countP (fun e => decide (timestampBegin ≤ e.1 ∧ e.1 ≤ timestampEnd)) ∧
      r0.hashesNumberWithinTimestamps = r.hashesNumberWithinTimestamps := by
  have hN : (entriesWithin self.index timestampBegin timestampEnd).length < 2 ^ 32 :=
    lt_of_le_of_lt (List.length_filter_le _ _) hlen
  refine ⟨_, _, TimestampBlocksIndex.blocks_find_eq self timestampBegin timestampEnd hashesNumberLimit
    hashes c hen hm hle (Or.inr hN), TimestampBlocksIndex.blocks_find_eq self timestampBegin
    timestampEnd 0 hashes c hen hm hle (Or.inr hN), ?_, rfl⟩
  simp only []
  rw [Nat.mod_eq_of_lt hN, List.countP_eq_length_filter]
  rfl

/-- Witness for claim C4: five blocks, three of them in the range `[3, 5]`,
the limit 2. -/
theorem TimestampBlocksIndex.find_count_witness :
    ∃ r r0, TimestampBlocksIndex.find ⟨true, [(1, 10), (3, 30), (3, 31), (5, 50), (7, 70)]⟩
        3 5 2 [] 0 = Except.ok r ∧
      TimestampBlocksIndex.find ⟨true, [(1, 10), (3, 30), (3, 31), (5, 50), (7, 70)]⟩
        3 5 0 [] 0 = Except.ok r0 ∧
      r.hashesNumberWithinTimestamps =
        List.countP (fun e => decide (3 ≤ e.1 ∧ e.1 ≤ 5))
          [(1, 10), (3, 30), (3, 31), (5, 50), (7, 70)] ∧
      r0.hashesNumberWithinTimestamps = r.hashesNumberWithinTimestamps :=
  TimestampBlocksIndex.find_count ⟨true, [(1, 10), (3, 30), (3, 31), (5, 50), (7, 70)]⟩
    3 5 2 [] 0 rfl (by decide) (by decide) (by decide)

/-- Claim C5 (as amended): the range is the closed interval
`[timestampBegin, timestampEnd]`. On an enabled `TimestampBlocksIndex` with
ordered index of fewer than `2^32` entries and `timestampBegin < timestampEnd`,
`find` counts every entry whose timestamp equals `timestampEnd`, and returns
the hash of each of them when the limit is at least the number of entries in
the range. -/
theorem TimestampBlocksIndex.find_includes_timestampEnd (self : TimestampBlocksIndex)
    (timestampBegin timestampEnd hashesNumberLimit : Nat) (hashes : List Hash) (c : Nat)
    (hen : self.enabled = true) (hm : Multimap.Ordered self.index)
    (hlen : self.index.length < 2 ^ 32) (hlt : timestampBegin < timestampEnd) :
    ∃ r, self.find timestampBegin timestampEnd hashesNumberLimit hashes c = Except.ok r ∧
      self.index.countP (fun e => decide (e.1 = timestampEnd)) ≤
        r.hashesNumberWithinTimestamps ∧
      ((entriesWithin self.index timestampBegin timestampEnd).length ≤ hashesNumberLimit →
        ∀ e ∈ self.index, e.1 = timestampEnd → e.2 ∈ r.hashes) := by
  have hN : (entriesWithin self.index timestampBegin timestampEnd).length < 2 ^ 32 :=
    lt_of_le_of_lt (List.length_filter_le _ _) hlen
  refine ⟨_, TimestampBlocksIndex.blocks_find_eq self timestampBegin timestampEnd hashesNumberLimit
    hashes c hen hm (Nat.le_of_lt hlt) (Or.inr hN), ?_, ?_⟩
  · simp only []
    rw [Nat.mod_eq_of_lt hN]
    unfold entriesWithin
    rw [← List.countP_eq_length_filter]
    apply List.countP_mono_left
    intro x _ hx
    simp only [decide_eq_true_eq] at hx ⊢
    omega
  · intro hfit e he hte
    simp only [List.take_of_length_le hfit, List.mem_append, List.mem_map]
    right
    refine ⟨e, ?_, rfl⟩
    unfold entriesWithin
    rw [List.mem_filter]
    refine ⟨he, ?_⟩
    simp only [decide_eq_true_eq]
    omega

/-- Witness for claim C5 (as amended): two blocks, the second at the end of
the range `[1, 5]`; it is counted and its hash 50 is returned. -/
theorem TimestampBlocksIndex.find_includes_timestampEnd_witness :
    ∃ r, TimestampBlocksIndex.find ⟨true, [(2, 20), (5, 50)]⟩ 1 5 10 [] 0 = Except.ok r ∧
      1 ≤ r.hashesNumberWithinTimestamps ∧ 50 ∈ r.hashes := by
  obtain ⟨r, h, h1, h2⟩ := TimestampBlocksIndex.find_includes_timestampEnd
    ⟨true, [(2, 20), (5, 50)]⟩ 1 5 10 [] 0 rfl (by decide) (by decide) (by decide)
  exact ⟨r, h, h1, h2 (by decide) (5, 50) (by simp) rfl⟩

/-- Claim C5 fails as stated: with blocks at timestamps 2 and 5 and the range
from 1 to 5, `find` counts two entries and returns the hash of the block whose
timestamp is `timestampEnd`; a half-open range would hold one entry. -/
theorem TimestampBlocksIndex.find_half_open_counterexample :
    (1 : Nat) < 5 ∧
    TimestampBlocksIndex.find ⟨true, [(2, 20), (5, 50)]⟩ 1 5 10 [] 0 =
      Except.ok ⟨true, [20, 50], 2⟩ ∧
    List.countP (fun e => decide (1 ≤ e.1 ∧ e.1 < 5)) [((2, 20) : Nat × Hash), (5, 50)] = 1 := by
  refine ⟨by decide, rfl, rfl⟩

/-- Value of `TimestampTransactionsIndex::find` when the 64-bit limit is at
least `2^32`: every entry of the range is copied, and both the count and the
counter behind the returned flag keep only the low 32 bits of their number. -/
theorem TimestampTransactionsIndex.find_eq_unbounded (self : TimestampTransactionsIndex)
    (tb te limit : Nat) (hs : List Hash) (c : Nat)
    (hen : self.enabled = true) (hm : Multimap.Ordered self.index) (hle : tb ≤ te)
    (hlim : 2 ^ 32 ≤ limit) :
    self.find tb te limit hs c = Except.ok
      ⟨decide ((entriesWithin self.index tb te).length % 2 ^ 32 > 0),
        hs ++ (entriesWithin self.index tb te).map Prod.snd,
        (entriesWithin self.index tb te).length % 2 ^ 32⟩ := by
  obtain ⟨hb, hseg⟩ := range_eq_entriesWithin self.index tb te hm hle
  have hd := bounds_distance self.index tb te hm hle
  have hub := Multimap.upper_bound_le_length self.index te
  have hloop := findLoop_unbounded (Multimap.upper_bound self.index te) limit hlim
    (self.index.drop (Multimap.lower_bound self.index tb)) (Multimap.lower_bound self.index tb)
    0 hs hb (by simp only [List.length_drop]; omega) (by norm_num)
  rw [hseg, hd, Nat.zero_add] at hloop
  have hcast := static_cast_uint32_distance _ _ hb
  rw [hd] at hcast
  have hnot : ¬ tb > te := by omega
  simp only [TimestampTransactionsIndex.find, hen, Bool.not_true, Bool.false_eq_true, if_false,
    hnot, hloop, hcast]
  rfl

/-- Claim C6, the code at the failing input: with `2^32 + 1` transactions of
timestamp 0 in the index, the range `[0, 0]` and the limit `2^32`, `find`
reports the count 1 and appends all `2^32 + 1` hashes, while the range holds
`2^32 + 1` entries and `min(limit, 2^32 + 1) = 2^32`. -/
theorem TimestampTransactionsIndex.find_truncates_count :
    TimestampTransactionsIndex.find ⟨true, List.replicate 4294967297 (0, 0)⟩
        0 0 4294967296 [] 0 =
      Except.ok ⟨true, List.replicate 4294967297 0, 1⟩ ∧
    (entriesWithin (List.replicate 4294967297 ((0, 0) : Nat × Hash)) 0 0).length = 4294967297 ∧
    (List.replicate 4294967297 (0 : Hash)).length ≠ min 4294967296 4294967297 := by
  have hE := entriesWithin_replicate 4294967297 ((0, 0) : Nat × Hash) 0 0
    ⟨Nat.le_refl 0, Nat.le_refl 0⟩
  have h := TimestampTransactionsIndex.find_eq_unbounded
    ⟨true, List.replicate 4294967297 (0, 0)⟩ 0 0 4294967296 [] 0 rfl
    (Multimap.ordered_replicate _ _) (Nat.le_refl 0) (by norm_num)
  have hidx : (TimestampTransactionsIndex.mk true (List.replicate 4294967297 (0, 0))).index =
      List.replicate 4294967297 (0, 0) := rfl
  rw [hidx, hE, List.length_replicate, List.map_replicate, List.nil_append] at h
  have h2 : 4294967297 % 2 ^ 32 = 1 := by norm_num
  rw [h2] at h
  refine ⟨h, ?_, ?_⟩
  · rw [hE, List.length_replicate]
  · rw [List.length_replicate]
    decide

/-! ## The node RPC proxy -/

namespace NodeRpcProxy

/-- Claim C7: every public asynchronous operation invoked while the connection
state is not INITIALIZED delivers the not-initialized error to its callback,
once, and leaves its output parameters and the proxy as they were. -/
theorem invoke_not_initialized {Out : Type} (self : NodeRpcProxy) (op : Operation)
    (procedure : Out → ErrorCode × Out) (out : Out)
    (h : self.m_state ≠ State.STATE_INITIALIZED) :
    (self.invoke op procedure out).delivered = [some NodeError.NOT_INITIALIZED] ∧
    (self.invoke op procedure out).out = out ∧
    (self.invoke op procedure out).proxy = self := by
  unfold invoke
  rw [if_pos h]
  exact ⟨rfl, rfl, rfl⟩

/-- Witness for claim C7: `getBlock` on a proxy that is still INITIALIZING,
with a procedure that would store block 42. -/
theorem invoke_not_initialized_witness :
    ((sampleProxy State.STATE_INITIALIZING).invoke Operation.getBlock
        (fun _ => (none, 42)) 0).delivered = [some NodeError.NOT_INITIALIZED] ∧
    ((sampleProxy State.STATE_INITIALIZING).invoke Operation.getBlock
        (fun _ => (none, 42)) 0).out = 0 ∧
    ((sampleProxy State.STATE_INITIALIZING).invoke Operation.getBlock
        (fun _ => (none, 42)) 0).proxy = sampleProxy State.STATE_INITIALIZING :=
  invoke_not_initialized (sampleProxy State.STATE_INITIALIZING) Operation.getBlock
    (fun _ => (none, 42)) 0 (by decide)

/-- Claim C8: `init` called in a state other than NOT_INITIALIZED fails at
once, its callback receives an error and the proxy, its state included, is
left as it was; called in NOT_INITIALIZED it has set the state to
INITIALIZING when it returns, and the callback has not been called yet. -/
theorem init_spec (self : NodeRpcProxy) :
    (self.m_state ≠ State.STATE_NOT_INITIALIZED →
      (∃ e, self.init.2 = [some e]) ∧ self.init.1 = self) ∧
    (self.m_state = State.STATE_NOT_INITIALIZED →
      self.init.1.m_state = State.STATE_INITIALIZING ∧ self.init.2 = []) := by
  constructor
  · intro h
    unfold init
    rw [if_pos h]
    exact ⟨⟨_, rfl⟩, rfl⟩
  · intro h
    unfold init
    rw [if_neg (not_not.mpr h)]
    exact ⟨rfl, rfl⟩

/-- Witness for claim C8: `init` on an INITIALIZED proxy and on an idle one. -/
theorem init_spec_witness :
    ((∃ e, (sampleProxy State.STATE_INITIALIZED).init.2 = [some e]) ∧
      (sampleProxy State.STATE_INITIALIZED).init.1 = sampleProxy State.STATE_INITIALIZED) ∧
    ((sampleProxy State.STATE_NOT_INITIALIZED).init.1.m_state = State.STATE_INITIALIZING ∧
      (sampleProxy State.STATE_NOT_INITIALIZED).init.2 = []) :=
  ⟨(init_spec (sampleProxy State.STATE_INITIALIZED)).1 (by decide),
    (init_spec (sampleProxy State.STATE_NOT_INITIALIZED)).2 rfl⟩

/-- Claim C9: from each of the three connection states `shutdown` leaves the
state NOT_INITIALIZED with no worker running; so does every sequence of
life-cycle events that starts with `init` and ends with `shutdown`; and a
second `shutdown` leaves the proxy exactly as the first one did. -/
theorem shutdown_spec (self : NodeRpcProxy) (events : List LifecycleEvent) :
    self.shutdown.2.m_state = State.STATE_NOT_INITIALIZED ∧
    self.shutdown.2.workerRunning = false ∧
    (lifecycleRun self
      (LifecycleEvent.init :: (events ++ [LifecycleEvent.shutdown]))).m_state =
        State.STATE_NOT_INITIALIZED ∧
    (lifecycleRun self
      (LifecycleEvent.init :: (events ++ [LifecycleEvent.shutdown]))).workerRunning = false ∧
    self.shutdown.2.shutdown = self.shutdown := by
  refine ⟨rfl, rfl, ?_, ?_, rfl⟩
  · simp only [lifecycleRun, List.foldl_cons, List.foldl_append, List.foldl_nil, lifecycleStep]
    rfl
  · simp only [lifecycleRun, List.foldl_cons, List.foldl_append, List.foldl_nil, lifecycleStep]
    rfl

/-- Erasing a list of identifiers from a set leaves the members that are not
in the list. -/
theorem mem_foldl_erase (deleted : List Hash) :
    ∀ (known : Finset Hash) (h : Hash),
      h ∈ deleted.foldl (fun known hash => known.erase hash) known ↔ h ∈ known ∧ h ∉ deleted := by
  induction deleted with
  | nil => simp
  | cons d rest ih =>
    intro known h
    simp only [List.foldl_cons, ih, Finset.mem_erase, List.mem_cons, not_or]
    tauto

/-- Inserting the identifiers of a list of transactions into a set adds these
identifiers and nothing else. -/
theorem mem_foldl_insert (added : List ITransactionReader) :
    ∀ (known : Finset Hash) (h : Hash),
      h ∈ added.foldl (fun known tx => insert tx.getTransactionHash known) known ↔
        h ∈ known ∨ h ∈ added.map ITransactionReader.getTransactionHash := by
  induction added with
  | nil => simp
  | cons a rest ih =>
    intro known h
    simp only [List.foldl_cons, ih, Finset.mem_insert, List.map_cons, List.mem_cons]
    tauto

/-- Claim C10: after `updatePoolState` the Known-Transaction Set contains the
identifier of every added transaction, contains no deleted identifier that is
not among the added ones, and for every other identifier membership is what it
was before. -/
theorem updatePoolState_knownTxs (self : NodeRpcProxy) (addedTxs : List ITransactionReader)
    (deletedTxsIds : List Hash) :
    (∀ tx ∈ addedTxs,
      tx.getTransactionHash ∈ (self.updatePoolState addedTxs deletedTxsIds).m_knownTxs) ∧
    (∀ h ∈ deletedTxsIds, h ∉ addedTxs.map ITransactionReader.getTransactionHash →
      h ∉ (self.updatePoolState addedTxs deletedTxsIds).m_knownTxs) ∧
    (∀ h, h ∉ addedTxs.map ITransactionReader.getTransactionHash → h ∉ deletedTxsIds →
      (h ∈ (self.updatePoolState addedTxs deletedTxsIds).m_knownTxs ↔ h ∈ self.m_knownTxs)) := by
  simp only [updatePoolState, mem_foldl_insert, mem_foldl_erase]
  refine ⟨?_, ?_, ?_⟩
  · intro tx htx
    exact Or.inr (List.mem_map_of_mem _ htx)
  · intro h hd ha
    tauto
  · intro h ha hd
    tauto

/-- Witness for claim C10: the known set is `{7, 8}`, the transactions 9 and 8
are added, the identifiers 8 and 7 are deleted, and 5 is not mentioned. -/
theorem updatePoolState_knownTxs_witness :
    9 ∈ ((sampleProxy State.STATE_INITIALIZED).updatePoolState [⟨9⟩, ⟨8⟩] [8, 7]).m_knownTxs ∧
    8 ∈ ((sampleProxy State.STATE_INITIALIZED).updatePoolState [⟨9⟩, ⟨8⟩] [8, 7]).m_knownTxs ∧
    7 ∉ ((sampleProxy State.STATE_INITIALIZED).updatePoolState [⟨9⟩, ⟨8⟩] [8, 7]).m_knownTxs ∧
    (5 ∈ ((sampleProxy State.STATE_INITIALIZED).updatePoolState [⟨9⟩, ⟨8⟩] [8, 7]).m_knownTxs ↔
      5 ∈ (sampleProxy State.STATE_INITIALIZED).m_knownTxs) := by
  obtain ⟨h1, h2, h3⟩ :=
    updatePoolState_knownTxs (sampleProxy State.STATE_INITIALIZED) [⟨9⟩, ⟨8⟩] [8, 7]
  exact ⟨h1 ⟨9⟩ (by simp), h1 ⟨8⟩ (by simp), h2 7 (by simp) (by simp),
    h3 5 (by simp) (by simp)⟩

end NodeRpcProxy

/-! ## The pool diff, scheduled requests, time-out and construction -/

namespace NodeRpcProxy

/-- Claim C11: applying an empty diff, no added transactions and no deleted
identifiers, with `updatePoolState` leaves the Known-Transaction Set, and the
whole proxy, unchanged. -/
theorem updatePoolState_empty (self : NodeRpcProxy) :
    (self.updatePoolState [] []).m_knownTxs = self.m_knownTxs ∧
    self.updatePoolState [] [] = self := by
  exact ⟨rfl, rfl⟩

/-- Claim C14: for every proxy and every value `v`, after the setter
`rpcTimeout(v)` the getter `rpcTimeout()` returns `v`, and the node host, the
node port and the connection state, as every member other than the time-out,
are what they were before the call. -/
theorem rpcTimeout_set_get (self : NodeRpcProxy) (v : Nat) :
    (self.rpcTimeoutSet v).rpcTimeout = v ∧
    (self.rpcTimeoutSet v).m_nodeHost = self.m_nodeHost ∧
    (self.rpcTimeoutSet v).m_nodePort = self.m_nodePort ∧
    (self.rpcTimeoutSet v).m_state = self.m_state ∧
    (self.rpcTimeoutSet v).rpcTimeoutSet self.m_rpcTimeout = self := by
  exact ⟨rfl, rfl, rfl, rfl, rfl⟩

/-- Claim C15: a freshly constructed proxy is idle: its state is
`STATE_NOT_INITIALIZED`, the enumerator of value 0 among the exactly three
enumerators of `State`, its stop flag is `false`, and no worker runs. -/
theorem construct_idle (nodeHost : String) (nodePort : Nat) (rpcTimeout pullInterval : Nat)
    (peerCount networkHeight nodeHeight minimalFee : Nat) (headerInfo : BlockHeaderInfo)
    (connected : Bool) :
    (construct nodeHost nodePort rpcTimeout pullInterval peerCount networkHeight nodeHeight
      minimalFee headerInfo connected).m_state = State.STATE_NOT_INITIALIZED ∧
    (construct nodeHost nodePort rpcTimeout pullInterval peerCount networkHeight nodeHeight
      minimalFee headerInfo connected).m_stop = false ∧
    (construct nodeHost nodePort rpcTimeout pullInterval peerCount networkHeight nodeHeight
      minimalFee headerInfo connected).workerRunning = false ∧
    State.STATE_NOT_INITIALIZED.value = 0 ∧
    (∀ s : State, s.value < 3) ∧
    (∀ s : State, s = State.STATE_NOT_INITIALIZED ∨ s = State.STATE_INITIALIZING ∨
      s = State.STATE_INITIALIZED) ∧
    State.STATE_NOT_INITIALIZED ≠ State.STATE_INITIALIZING ∧
    State.STATE_NOT_INITIALIZED ≠ State.STATE_INITIALIZED ∧
    State.STATE_INITIALIZING ≠ State.STATE_INITIALIZED := by
  refine ⟨rfl, rfl, rfl, rfl, ?_, ?_, by decide, by decide, by decide⟩
  · intro s
    cases s <;> decide
  · intro s
    cases s <;> simp

end NodeRpcProxy

/-- Claim C16: for every `WalletServiceErrorCode e`, `make_error_code(e)` has a
non-zero value, so it converts to `true` and is never read as success; the
value is the number of the enumerator, from 1 for `WRONG_KEY_FORMAT` to 6 for
`KEYS_NOT_DETERMINISTIC`; the category is `WalletServiceErrorCategory`; and
distinct codes give distinct values. -/
theorem make_error_code_spec :
    (∀ e : error.WalletServiceErrorCode,
      (make_error_code e).value ≠ 0 ∧ (make_error_code e).toBool = true ∧
      1 ≤ (make_error_code e).value ∧ (make_error_code e).value ≤ 6 ∧
      (make_error_code e).category = error.WalletServiceErrorCategory.INSTANCE ∧
      (make_error_code e).category.name = "WalletServiceErrorCategory") ∧
    (make_error_code error.WalletServiceErrorCode.WRONG_KEY_FORMAT).value = 1 ∧
    (make_error_code error.WalletServiceErrorCode.WRONG_PAYMENT_ID_FORMAT).value = 2 ∧
    (make_error_code error.WalletServiceErrorCode.WRONG_HASH_FORMAT).value = 3 ∧
    (make_error_code error.WalletServiceErrorCode.OBJECT_NOT_FOUND).value = 4 ∧
    (make_error_code error.WalletServiceErrorCode.DUPLICATE_KEY).value = 5 ∧
    (make_error_code error.WalletServiceErrorCode.KEYS_NOT_DETERMINISTIC).value = 6 ∧
    (∀ e1 e2 : error.WalletServiceErrorCode,
      e1 ≠ e2 → (make_error_code e1).value ≠ (make_error_code e2).value) := by
  refine ⟨?_, rfl, rfl, rfl, rfl, rfl, rfl, ?_⟩
  · intro e
    cases e <;> exact ⟨by decide, by decide, by decide, by decide, rfl, rfl⟩
  · intro e1 e2
    cases e1 <;> cases e2 <;> decide

/-! ## Removal from the multimaps -/

/-- Erasing a pair that is in a list removes exactly one occurrence of it. -/
theorem erasedOne_erase (before : List (Nat × Hash)) (pair : Nat × Hash) (h : pair ∈ before) :
    ErasedOne before pair (before.erase pair) := by
  refine ⟨rfl, ?_, ?_⟩
  · rw [List.count_erase_self]
    have := List.count_pos_iff.mpr h
    omega
  · intro e he
    exact List.count_erase_of_ne he before

/-- Erasing `a` from a list that is `a :: m` up to the order gives `m` up to
the order. -/
theorem perm_erase_of_perm_cons (l m : List (Nat × Hash)) (a : Nat × Hash)
    (h : List.Perm l (a :: m)) : List.Perm (l.erase a) m := by
  have hmem : a ∈ l := h.mem_iff.mpr (List.mem_cons_self _ _)
  obtain ⟨l₁, l₂, _, hl, he⟩ := List.exists_erase_eq hmem
  rw [he]
  rw [hl] at h
  exact List.Perm.cons_inv (List.Perm.trans (List.Perm.symm List.perm_middle) h)

namespace Multimap

/-- Moving both the position of the head and the end of the range by one
moves the position found by one. -/
theorem removeLoop_succ (last : Nat) (hash : Hash) (l : List (Nat × Hash)) :
    ∀ iter : Nat, removeLoop (last + 1) hash l (iter + 1) =
      (removeLoop last hash l iter).map (fun i => i + 1) := by
  induction l with
  | nil =>
    intro iter
    rfl
  | cons e rest ih =>
    intro iter
    unfold removeLoop
    by_cases hi : iter = last
    · have h1 : ¬ iter + 1 ≠ last + 1 := by omega
      have h2 : ¬ iter ≠ last := by omega
      rw [if_neg h1, if_neg h2]
      rfl
    · have h1 : iter + 1 ≠ last + 1 := by omega
      rw [if_pos h1, if_pos hi]
      by_cases hh : e.2 = hash
      · rw [if_pos hh, if_pos hh]
        rfl
      · rw [if_neg hh, if_neg hh]
        exact ih (iter + 1)

theorem lower_bound_eq_zero (m : Multimap) (key : Nat) (h : ∀ x ∈ m, key ≤ x.1) :
    lower_bound m key = 0 := by
  cases m with
  | nil => rfl
  | cons e m =>
    rw [lower_bound_cons]
    have := h e (List.mem_cons_self _ _)
    rw [if_neg (by omega)]

/-- An entry with a smaller key in front does not change what `remove` does. -/
theorem removeFirst_cons_lt (e : Nat × Hash) (m : Multimap) (key : Nat) (hash : Hash)
    (h : e.1 < key) :
    removeFirst (e :: m) key hash = (removeFirst m key hash).map (fun index => e :: index) := by
  have h' : e.1 ≤ key := by omega
  simp only [removeFirst, lower_bound_cons, upper_bound_cons, if_pos h, if_pos h',
    List.drop_succ_cons, removeLoop_succ]
  cases removeLoop (upper_bound m key) hash (List.drop (lower_bound m key) m)
    (lower_bound m key) with
  | none => rfl
  | some i => rfl

/-- An entry with the key and the hash in front is the one `remove` erases. -/
theorem removeFirst_cons_hit (e : Nat × Hash) (m : Multimap) (key : Nat) (hash : Hash)
    (h1 : e.1 = key) (h2 : e.2 = hash) :
    removeFirst (e :: m) key hash = some m := by
  have ha : ¬ e.1 < key := by omega
  have hb : e.1 ≤ key := by omega
  simp only [removeFirst, lower_bound_cons, upper_bound_cons, if_neg ha, if_pos hb,
    List.drop_zero]
  unfold removeLoop
  rw [if_pos (by omega), if_pos h2]
  rfl

/-- An entry with the key and another hash in front is skipped. -/
theorem removeFirst_cons_skip (e : Nat × Hash) (m : Multimap) (key : Nat) (hash : Hash)
    (h1 : e.1 = key) (h2 : e.2 ≠ hash) (hm : ∀ x ∈ m, key ≤ x.1) :
    removeFirst (e :: m) key hash = (removeFirst m key hash).map (fun index => e :: index) := by
  have ha : ¬ e.1 < key := by omega
  have hb : e.1 ≤ key := by omega
  have hz := lower_bound_eq_zero m key hm
  simp only [removeFirst, lower_bound_cons, upper_bound_cons, if_neg ha, if_pos hb,
    List.drop_zero, hz]
  rw [removeLoop]
  rw [if_pos (by omega), if_neg h2, removeLoop_succ]
  cases removeLoop (upper_bound m key) hash m 0 with
  | none => rfl
  | some i => rfl

/-- With a greater key in front the equal range is empty. -/
theorem removeFirst_cons_gt (e : Nat × Hash) (m : Multimap) (key : Nat) (hash : Hash)
    (h : key < e.1) :
    removeFirst (e :: m) key hash = none := by
  have ha : ¬ e.1 < key := by omega
  have hb : ¬ e.1 ≤ key := by omega
  simp only [removeFirst, lower_bound_cons, upper_bound_cons, if_neg ha, if_neg hb,
    List.drop_zero]
  unfold removeLoop
  rw [if_neg (by omega)]

/-- On an ordered multimap `remove` erases the first occurrence of the pair
`(key, hash)`, and finds none exactly when the pair is not in the index. -/
theorem removeFirst_eq (m : Multimap) (key : Nat) (hash : Hash) (hm : Ordered m) :
    removeFirst m key hash = if (key, hash) ∈ m then some (m.erase (key, hash)) else none := by
  induction m with
  | nil => rfl
  | cons e m ih =>
    obtain ⟨h1, h2⟩ := ordered_cons.mp hm
    have ih' := ih h2
    rcases Nat.lt_trichotomy e.1 key with hlt | heq | hgt
    · have hne : e ≠ (key, hash) := by
        intro he
        rw [he] at hlt
        exact Nat.lt_irrefl _ hlt
      have hbeq : ¬ (e == (key, hash)) = true := by simpa using hne
      rw [removeFirst_cons_lt e m key hash hlt, ih']
      by_cases hmem : (key, hash) ∈ m
      · have hmem' : (key, hash) ∈ e :: m := List.mem_cons_of_mem _ hmem
        rw [if_pos hmem, if_pos hmem', List.erase_cons_tail hbeq]
        rfl
      · have hmem' : (key, hash) ∉ e :: m := by
          intro hc
          rcases List.mem_cons.mp hc with hc | hc
          · exact hne hc.symm
          · exact hmem hc
        rw [if_neg hmem, if_neg hmem']
        rfl
    · by_cases hh : e.2 = hash
      · have he : e = (key, hash) := Prod.ext heq hh
        rw [removeFirst_cons_hit e m key hash heq hh, he,
          if_pos (List.mem_cons_self _ _), List.erase_cons_head]
      · have hne : e ≠ (key, hash) := by
          intro he
          rw [he] at hh
          exact hh rfl
        have hbeq : ¬ (e == (key, hash)) = true := by simpa using hne
        have hge : ∀ x ∈ m, key ≤ x.1 := fun x hx => heq ▸ h1 x hx
        rw [removeFirst_cons_skip e m key hash heq hh hge, ih']
        by_cases hmem : (key, hash) ∈ m
        · have hmem' : (key, hash) ∈ e :: m := List.mem_cons_of_mem _ hmem
          rw [if_pos hmem, if_pos hmem', List.erase_cons_tail hbeq]
          rfl
        · have hmem' : (key, hash) ∉ e :: m := by
            intro hc
            rcases List.mem_cons.mp hc with hc | hc
            · exact hne hc.symm
            · exact hmem hc
          rw [if_neg hmem, if_neg hmem']
          rfl
    · have hmem' : (key, hash) ∉ e :: m := by
        intro hc
        rcases List.mem_cons.mp hc with hc | hc
        · rw [← hc] at hgt
          exact Nat.lt_irrefl _ hgt
        · have := h1 _ hc
          simp only at this
          omega
      rw [removeFirst_cons_gt e m key hash hgt, if_neg hmem']

/-- The entry that `emplace` inserts is in the multimap, and the multimap is
the old one with this entry, up to the order. -/
theorem emplace_perm (m : Multimap) (key : Nat) (hash : Hash) :
    List.Perm (emplace m key hash) ((key, hash) :: m) := by
  unfold emplace
  refine List.Perm.trans List.perm_middle ?_
  rw [List.takeWhile_append_dropWhile]

end Multimap

/-- The loop over the equal range of an unordered multimap erases the first
occurrence of the pair `(key, hash)`, and finds none exactly when the pair is
not in the index. -/
theorem UnorderedMultimap.unordered_removeFirst_eq (m : UnorderedMultimap) (key : Nat) (hash : Hash) :
    UnorderedMultimap.removeFirst key hash m =
      if (key, hash) ∈ m then some (m.erase (key, hash)) else none := by
  induction m with
  | nil => rfl
  | cons e m ih =>
    by_cases he : e = (key, hash)
    · subst he
      simp [UnorderedMultimap.removeFirst]
    · have hbeq : ¬ (e == (key, hash)) = true := by simpa using he
      have hstep : UnorderedMultimap.removeFirst key hash (e :: m) =
          (UnorderedMultimap.removeFirst key hash m).map (fun index => e :: index) := by
        by_cases h1 : e.1 = key
        · have h2 : e.2 ≠ hash := fun h2 => he (Prod.ext h1 h2)
          rw [UnorderedMultimap.removeFirst, if_pos h1, if_neg h2]
        · rw [UnorderedMultimap.removeFirst, if_neg h1]
      rw [hstep, ih]
      by_cases hmem : (key, hash) ∈ m
      · have hmem' : (key, hash) ∈ e :: m := List.mem_cons_of_mem _ hmem
        rw [if_pos hmem, if_pos hmem', List.erase_cons_tail hbeq]
        rfl
      · have hmem' : (key, hash) ∉ e :: m := by
          intro hc
          rcases List.mem_cons.mp hc with hc | hc
          · exact he hc.symm
          · exact hmem hc
        rw [if_neg hmem, if_neg hmem']
        rfl

/-- Value of `TimestampBlocksIndex::remove` on an enabled, ordered index. -/
theorem TimestampBlocksIndex.blocks_remove_eq (self : TimestampBlocksIndex) (timestamp : Nat)
    (hash : Hash) (hen : self.enabled = true) (hm : Multimap.Ordered self.index) :
    self.remove timestamp hash =
      if (timestamp, hash) ∈ self.index then
        (true, { self with index := self.index.erase (timestamp, hash) })
      else (false, self) := by
  unfold TimestampBlocksIndex.remove
  rw [Multimap.removeFirst_eq _ _ _ hm, hen]
  by_cases hmem : (timestamp, hash) ∈ self.index
  · simp only [if_pos hmem]
    rfl
  · simp only [if_neg hmem]
    rfl

/-- Value of `TimestampTransactionsIndex::remove` on an enabled, ordered
index. -/
theorem TimestampTransactionsIndex.transactions_remove_eq (self : TimestampTransactionsIndex)
    (timestamp : Nat) (hash : Hash) (hen : self.enabled = true)
    (hm : Multimap.Ordered self.index) :
    self.remove timestamp hash =
      if (timestamp, hash) ∈ self.index then
        (true, { self with index := self.index.erase (timestamp, hash) })
      else (false, self) := by
  unfold TimestampTransactionsIndex.remove
  rw [Multimap.removeFirst_eq _ _ _ hm, hen]
  by_cases hmem : (timestamp, hash) ∈ self.index
  · simp only [if_pos hmem]
    rfl
  · simp only [if_neg hmem]
    rfl

/-- Value of `PaymentIdIndex::remove` on an enabled index, for a transaction
that has a payment id. -/
theorem PaymentIdIndex.payments_remove_eq (getObjectHash : Transaction → Hash)
    (getPaymentId : Transaction → Option Hash) (self : PaymentIdIndex)
    (transaction : Transaction) (paymentId : Hash) (hen : self.enabled = true)
    (hid : getPaymentId transaction = some paymentId) :
    self.remove getObjectHash getPaymentId transaction =
      if (paymentId, getObjectHash transaction) ∈ self.index then
        (true, { self with index := self.index.erase (paymentId, getObjectHash transaction) })
      else (false, self) := by
  unfold PaymentIdIndex.remove
  simp only [hen, hid, UnorderedMultimap.unordered_removeFirst_eq]
  by_cases hmem : (paymentId, getObjectHash transaction) ∈ self.index
  · simp only [if_pos hmem]
    rfl
  · simp only [if_neg hmem]
    rfl

/-- Value of `OrphanBlocksIndex::remove` on an enabled index, for a block
whose first base input is a `BaseInput`. -/
theorem OrphanBlocksIndex.orphans_remove_eq (get_block_hash : Block → Hash) (self : OrphanBlocksIndex)
    (block : Block) (height : Nat) (hen : self.enabled = true)
    (hheight : baseInputBlockIndex block = Except.ok height) :
    self.remove get_block_hash block = Except.ok
      (if (height, get_block_hash block) ∈ self.index then
        (true, { self with index := self.index.erase (height, get_block_hash block) })
      else (false, self)) := by
  unfold OrphanBlocksIndex.remove
  simp only [hen, hheight, UnorderedMultimap.unordered_removeFirst_eq]
  by_cases hmem : (height, get_block_hash block) ∈ self.index
  · simp only [if_pos hmem]
    rfl
  · simp only [if_neg hmem]
    rfl

/-- Claim C19: on an enabled `TimestampBlocksIndex`, and in the same way on an
enabled `TimestampTransactionsIndex`, `PaymentIdIndex` and `OrphanBlocksIndex`,
`remove` returns `true` exactly when the pair `(key, hash)` is in the index;
it then removes exactly one occurrence of the pair and leaves every other
entry, further duplicates of the pair included, in place; when it returns
`false` the index is unchanged; and `add` followed by `remove` of the same pair
returns `true` twice and restores the index as a multiset. For the payment id
index the pair is the payment id and the hash of the transaction, for the
orphan blocks index the height of the base input and the hash of the block. -/
theorem remove_spec (blocks : TimestampBlocksIndex) (transactions : TimestampTransactionsIndex)
    (payments : PaymentIdIndex) (orphans : OrphanBlocksIndex)
    (key : Nat) (hash : Hash)
    (getObjectHash : Transaction → Hash) (getPaymentId : Transaction → Option Hash)
    (transaction : Transaction) (paymentId : Hash)
    (get_block_hash : Block → Hash) (block : Block) (height : Nat)
    (hb : blocks.enabled = true) (hbo : Multimap.Ordered blocks.index)
    (ht : transactions.enabled = true) (hto : Multimap.Ordered transactions.index)
    (hp : payments.enabled = true) (hid : getPaymentId transaction = some paymentId)
    (ho : orphans.enabled = true) (hheight : baseInputBlockIndex block = Except.ok height) :
    (((blocks.remove key hash).1 = true ↔ (key, hash) ∈ blocks.index) ∧
      ((key, hash) ∈ blocks.index →
        ErasedOne blocks.index (key, hash) (blocks.remove key hash).2.index) ∧
      ((blocks.remove key hash).1 = false → (blocks.remove key hash).2 = blocks) ∧
      (blocks.add key hash).1 = true ∧
      ((blocks.add key hash).2.remove key hash).1 = true ∧
      List.Perm ((blocks.add key hash).2.remove key hash).2.index blocks.index) ∧
    (((transactions.remove key hash).1 = true ↔ (key, hash) ∈ transactions.index) ∧
      ((key, hash) ∈ transactions.index →
        ErasedOne transactions.index (key, hash) (transactions.remove key hash).2.index) ∧
      ((transactions.remove key hash).1 = false →
        (transactions.remove key hash).2 = transactions) ∧
      (transactions.add key hash).1 = true ∧
      ((transactions.add key hash).2.remove key hash).1 = true ∧
      List.Perm ((transactions.add key hash).2.remove key hash).2.index transactions.index) ∧
    (((payments.remove getObjectHash getPaymentId transaction).1 = true ↔
        (paymentId, getObjectHash transaction) ∈ payments.index) ∧
      ((paymentId, getObjectHash transaction) ∈ payments.index →
        ErasedOne payments.index (paymentId, getObjectHash transaction)
          (payments.remove getObjectHash getPaymentId transaction).2.index) ∧
      ((payments.remove getObjectHash getPaymentId transaction).1 = false →
        (payments.remove getObjectHash getPaymentId transaction).2 = payments) ∧
      (payments.add getObjectHash getPaymentId transaction).1 = true ∧
      (((payments.add getObjectHash getPaymentId transaction).2).remove
        getObjectHash getPaymentId transaction).1 = true ∧
      List.Perm (((payments.add getObjectHash getPaymentId transaction).2).remove
        getObjectHash getPaymentId transaction).2.index payments.index) ∧
    ((∃ r, orphans.remove get_block_hash block = Except.ok r ∧
        (r.1 = true ↔ (height, get_block_hash block) ∈ orphans.index) ∧
        ((height, get_block_hash block) ∈ orphans.index →
          ErasedOne orphans.index (height, get_block_hash block) r.2.index) ∧
        (r.1 = false → r.2 = orphans)) ∧
      (∃ a r, orphans.add get_block_hash block = Except.ok a ∧ a.1 = true ∧
        a.2.remove get_block_hash block = Except.ok r ∧ r.1 = true ∧
        List.Perm r.2.index orphans.index)) := by
  refine ⟨?_, ?_, ?_, ?_, ?_⟩
  · -- the timestamp blocks index
    have hadd : blocks.add key hash =
        (true, { blocks with index := blocks.index.emplace key hash }) := by
      simp [TimestampBlocksIndex.add, hb]
    have hmem : (key, hash) ∈ blocks.index.emplace key hash :=
      (Multimap.emplace_perm _ _ _).mem_iff.mpr (List.mem_cons_self _ _)
    have hrem := TimestampBlocksIndex.blocks_remove_eq
      { blocks with index := blocks.index.emplace key hash } key hash hb
      (Multimap.ordered_emplace hbo key hash)
    rw [if_pos hmem] at hrem
    rw [TimestampBlocksIndex.blocks_remove_eq blocks key hash hb hbo, hadd]
    refine ⟨?_, ?_, ?_, rfl, ?_, ?_⟩
    · by_cases h : (key, hash) ∈ blocks.index <;> simp [h]
    · intro h
      rw [if_pos h]
      exact erasedOne_erase _ _ h
    · by_cases h : (key, hash) ∈ blocks.index <;> simp [h]
    · rw [hrem]
    · rw [hrem]
      exact perm_erase_of_perm_cons _ _ _ (Multimap.emplace_perm blocks.index key hash)
  · -- the timestamp transactions index
    have hadd : transactions.add key hash =
        (true, { transactions with index := transactions.index.emplace key hash }) := by
      simp [TimestampTransactionsIndex.add, ht]
    have hmem : (key, hash) ∈ transactions.index.emplace key hash :=
      (Multimap.emplace_perm _ _ _).mem_iff.mpr (List.mem_cons_self _ _)
    have hrem := TimestampTransactionsIndex.transactions_remove_eq
      { transactions with index := transactions.index.emplace key hash } key hash ht
      (Multimap.ordered_emplace hto key hash)
    rw [if_pos hmem] at hrem
    rw [TimestampTransactionsIndex.transactions_remove_eq transactions key hash ht hto, hadd]
    refine ⟨?_, ?_, ?_, rfl, ?_, ?_⟩
    · by_cases h : (key, hash) ∈ transactions.index <;> simp [h]
    · intro h
      rw [if_pos h]
      exact erasedOne_erase _ _ h
    · by_cases h : (key, hash) ∈ transactions.index <;> simp [h]
    · rw [hrem]
    · rw [hrem]
      exact perm_erase_of_perm_cons _ _ _ (Multimap.emplace_perm transactions.index key hash)
  · -- the payment id index
    have hadd : payments.add getObjectHash getPaymentId transaction =
        (true, { payments with
          index := (paymentId, getObjectHash transaction) :: payments.index }) := by
      simp [PaymentIdIndex.add, hp, hid]
    have hrem := PaymentIdIndex.payments_remove_eq getObjectHash getPaymentId
      { payments with index := (paymentId, getObjectHash transaction) :: payments.index }
      transaction paymentId hp hid
    rw [if_pos (List.mem_cons_self _ _)] at hrem
    rw [PaymentIdIndex.payments_remove_eq getObjectHash getPaymentId payments transaction paymentId hp hid,
      hadd]
    refine ⟨?_, ?_, ?_, rfl, ?_, ?_⟩
    · by_cases h : (paymentId, getObjectHash transaction) ∈ payments.index <;> simp [h]
    · intro h
      rw [if_pos h]
      exact erasedOne_erase _ _ h
    · by_cases h : (paymentId, getObjectHash transaction) ∈ payments.index <;> simp [h]
    · rw [hrem]
    · rw [hrem]
      simp only [List.erase_cons_head]
      exact List.Perm.refl _
  · -- the orphan blocks index, remove
    refine ⟨_, OrphanBlocksIndex.orphans_remove_eq get_block_hash orphans block height ho hheight,
      ?_, ?_, ?_⟩
    · by_cases h : (height, get_block_hash block) ∈ orphans.index <;> simp [h]
    · intro h
      rw [if_pos h]
      exact erasedOne_erase _ _ h
    · by_cases h : (height, get_block_hash block) ∈ orphans.index <;> simp [h]
  · -- the orphan blocks index, add and then remove
    have hadd : orphans.add get_block_hash block = Except.ok
        (true, { orphans with index := (height, get_block_hash block) :: orphans.index }) := by
      simp only [OrphanBlocksIndex.add, ho, hheight]
      rfl
    have hrem := OrphanBlocksIndex.orphans_remove_eq get_block_hash
      { orphans with index := (height, get_block_hash block) :: orphans.index }
      block height ho hheight
    rw [if_pos (List.mem_cons_self _ _)] at hrem
    refine ⟨_, _, hadd, rfl, hrem, rfl, ?_⟩
    simp only [List.erase_cons_head]
    exact List.Perm.refl _

/-- Witness for claim C19: four indices that hold the pair to remove, the
timestamp indices twice. -/
theorem remove_spec_witness :
    (TimestampBlocksIndex.remove ⟨true, [(1, 10), (3, 30), (3, 31), (3, 30)]⟩ 3 30).1 = true ∧
    ErasedOne [(1, 10), (3, 30), (3, 31), (3, 30)] (3, 30)
      (TimestampBlocksIndex.remove ⟨true, [(1, 10), (3, 30), (3, 31), (3, 30)]⟩ 3 30).2.index ∧
    (TimestampTransactionsIndex.remove ⟨true, [(3, 30), (3, 30), (4, 40)]⟩ 3 30).1 = true ∧
    (PaymentIdIndex.remove (fun tx => tx.extra.sum) (fun tx => tx.extra.head?)
      ⟨true, [(9, 90), (7, 8)]⟩ ⟨[], [7, 1]⟩).1 = true ∧
    (∃ r, OrphanBlocksIndex.remove (fun b => b.transactionHashes.sum) ⟨true, [(4, 11), (4, 12)]⟩
        ⟨⟨[TransactionInput.BaseInput 4], []⟩, [5, 6]⟩ = Except.ok r ∧ r.1 = true) := by
  obtain ⟨⟨hb1, hb2, _⟩, ⟨ht1, _⟩, ⟨hp1, _⟩, ⟨r, hr, hr1, _⟩, _⟩ :=
    remove_spec ⟨true, [(1, 10), (3, 30), (3, 31), (3, 30)]⟩ ⟨true, [(3, 30), (3, 30), (4, 40)]⟩
      ⟨true, [(9, 90), (7, 8)]⟩ ⟨true, [(4, 11), (4, 12)]⟩ 3 30
      (fun tx => tx.extra.sum) (fun tx => tx.extra.head?) ⟨[], [7, 1]⟩ 7
      (fun b => b.transactionHashes.sum) ⟨⟨[TransactionInput.BaseInput 4], []⟩, [5, 6]⟩ 4
      rfl (by decide) rfl (by decide) rfl rfl rfl rfl
  exact ⟨hb1.mpr (by decide), hb2 (by decide), ht1.mpr (by decide), hp1.mpr (by decide),
    r, hr, hr1.mpr (by decide)⟩

/-! ## Disabled indices -/

/-- A sequence of calls none of which changes the state leaves the state. -/
theorem foldl_fixed {S C : Type} (f : S → C → S) (s : S) (h : ∀ c, f s c = s) (calls : List C) :
    calls.foldl f s = s := by
  induction calls with
  | nil => rfl
  | cons c rest ih => rw [List.foldl_cons, h c, ih]

/-- Claim C20: on each of the five indices constructed with `enabled = false`,
after every sequence of calls of `add`, `remove` and `clear` the index is still
the empty index it was constructed as; in that state `add` and `remove` return
`false` and `clear` returns, all three without changing the index, and every
`find` throws its runtime error for all arguments, an inverted timestamp
range included. A `find` that throws hands no output back: the throw is its
first statement, before any output parameter is written. -/
theorem disabled_index_spec
    (blockCalls transactionCalls : List (IndexCall (Nat × Hash)))
    (generatedCalls orphanCalls : List (IndexCall Block))
    (paymentCalls : List (IndexCall Transaction))
    (get_block_hash : Block → Hash) (getObjectHash : Transaction → Hash)
    (getPaymentId : Transaction → Option Hash)
    (timestamp : Nat) (hash : Hash) (block : Block) (transaction : Transaction)
    (timestampBegin timestampEnd limit : Nat) (hashes : List Hash) (count : Nat)
    (height generatedTransactions : Nat) (paymentId : Hash) :
    (blockCalls.foldl TimestampBlocksIndex.call (TimestampBlocksIndex.construct false) =
        TimestampBlocksIndex.construct false ∧
      (TimestampBlocksIndex.construct false).index = [] ∧
      (TimestampBlocksIndex.construct false).add timestamp hash =
        (false, TimestampBlocksIndex.construct false) ∧
      (TimestampBlocksIndex.construct false).remove timestamp hash =
        (false, TimestampBlocksIndex.construct false) ∧
      (TimestampBlocksIndex.construct false).clear = TimestampBlocksIndex.construct false ∧
      (TimestampBlocksIndex.construct false).find timestampBegin timestampEnd limit hashes count =
        Except.error "Timestamp block index disabled.") ∧
    (transactionCalls.foldl TimestampTransactionsIndex.call
        (TimestampTransactionsIndex.construct false) =
        TimestampTransactionsIndex.construct false ∧
      (TimestampTransactionsIndex.construct false).index = [] ∧
      (TimestampTransactionsIndex.construct false).add timestamp hash =
        (false, TimestampTransactionsIndex.construct false) ∧
      (TimestampTransactionsIndex.construct false).remove timestamp hash =
        (false, TimestampTransactionsIndex.construct false) ∧
      (TimestampTransactionsIndex.construct false).clear =
        TimestampTransactionsIndex.construct false ∧
      (TimestampTransactionsIndex.construct false).find timestampBegin timestampEnd limit hashes
        count = Except.error "Timestamp transactions index disabled.") ∧
    (generatedCalls.foldl GeneratedTransactionsIndex.call
        (GeneratedTransactionsIndex.construct false) =
        GeneratedTransactionsIndex.construct false ∧
      (GeneratedTransactionsIndex.construct false).index = [] ∧
      (GeneratedTransactionsIndex.construct false).add block =
        Except.ok (false, GeneratedTransactionsIndex.construct false) ∧
      (GeneratedTransactionsIndex.construct false).remove block =
        Except.ok (false, GeneratedTransactionsIndex.construct false) ∧
      (GeneratedTransactionsIndex.construct false).clear =
        GeneratedTransactionsIndex.construct false ∧
      (GeneratedTransactionsIndex.construct false).find height generatedTransactions =
        Except.error "Generated transactions index disabled.") ∧
    (orphanCalls.foldl (OrphanBlocksIndex.call get_block_hash)
        (OrphanBlocksIndex.construct false) = OrphanBlocksIndex.construct false ∧
      (OrphanBlocksIndex.construct false).index = [] ∧
      (OrphanBlocksIndex.construct false).add get_block_hash block =
        Except.ok (false, OrphanBlocksIndex.construct false) ∧
      (OrphanBlocksIndex.construct false).remove get_block_hash block =
        Except.ok (false, OrphanBlocksIndex.construct false) ∧
      (OrphanBlocksIndex.construct false).clear = OrphanBlocksIndex.construct false ∧
      (OrphanBlocksIndex.construct false).find height hashes =
        Except.error "Orphan blocks index disabled.") ∧
    (paymentCalls.foldl (PaymentIdIndex.call getObjectHash getPaymentId)
        (PaymentIdIndex.construct false) = PaymentIdIndex.construct false ∧
      (PaymentIdIndex.construct false).index = [] ∧
      (PaymentIdIndex.construct false).add getObjectHash getPaymentId transaction =
        (false, PaymentIdIndex.construct false) ∧
      (PaymentIdIndex.construct false).remove getObjectHash getPaymentId transaction =
        (false, PaymentIdIndex.construct false) ∧
      (PaymentIdIndex.construct false).clear = PaymentIdIndex.construct false ∧
      (PaymentIdIndex.construct false).find paymentId hashes =
        Except.error "Payment id index disabled." ∧
      (PaymentIdIndex.construct false).findHashes paymentId =
        Except.error "Payment id index disabled.") := by
  refine ⟨⟨?_, rfl, rfl, rfl, rfl, rfl⟩, ⟨?_, rfl, rfl, rfl, rfl, rfl⟩,
    ⟨?_, rfl, rfl, rfl, rfl, rfl⟩, ⟨?_, rfl, rfl, rfl, rfl, rfl⟩,
    ⟨?_, rfl, rfl, rfl, rfl, rfl, rfl⟩⟩
  · apply foldl_fixed
    intro c
    cases c <;> rfl
  · apply foldl_fixed
    intro c
    cases c <;> rfl
  · apply foldl_fixed
    intro c
    cases c <;> rfl
  · apply foldl_fixed
    intro c
    cases c <;> rfl
  · apply foldl_fixed
    intro c
    cases c <;> rfl

/-! ## The generated transactions index -/

namespace UnorderedMap

theorem find_nil (key : Nat) : find [] key = none := rfl

theorem find_cons (e : Nat × Nat) (m : UnorderedMap) (key : Nat) :
    find (e :: m) key = if e.1 = key then some e.2 else find m key := by
  unfold find
  by_cases h : e.1 = key
  · simp [List.find?_cons, h]
  · simp [List.find?_cons, h]

theorem find_eq_none_iff (m : UnorderedMap) (key : Nat) :
    find m key = none ↔ key ∉ m.map Prod.fst := by
  induction m with
  | nil => simp [find_nil]
  | cons e m ih =>
    rw [find_cons]
    by_cases h : e.1 = key
    · simp [h]
    · rw [if_neg h, ih]
      simp only [List.map_cons, List.mem_cons, not_or]
      exact ⟨fun hm => ⟨fun hk => h hk.symm, hm⟩, fun hm => hm.2⟩

/-- Erasing the entry of a key that is present removes this key from the keys. -/
theorem keys_erase_perm (m : UnorderedMap) (key : Nat) (h : key ∈ m.map Prod.fst) :
    List.Perm (m.map Prod.fst) (key :: (erase m key).map Prod.fst) := by
  induction m with
  | nil => simp at h
  | cons e m ih =>
    unfold erase
    by_cases he : e.1 = key
    · rw [List.eraseP_cons_of_pos (by simpa using he)]
      simp only [List.map_cons, he]
      exact List.Perm.refl _
    · rw [List.eraseP_cons_of_neg (by simpa using he)]
      have hmem : key ∈ m.map Prod.fst := by
        simp only [List.map_cons, List.mem_cons] at h
        rcases h with h | h
        · exact absurd h.symm he
        · exact h
      simp only [List.map_cons]
      exact List.Perm.trans (List.Perm.cons _ (ih hmem)) (List.Perm.swap _ _ _)

/-- Erasing the entry of a key does not change what `find` gives for another
key. -/
theorem find_erase_of_ne (m : UnorderedMap) (key key' : Nat) (h : key' ≠ key) :
    find (erase m key) key' = find m key' := by
  induction m with
  | nil => rfl
  | cons e m ih =>
    unfold erase at ih ⊢
    by_cases he : e.1 = key
    · rw [List.eraseP_cons_of_pos (by simpa using he), find_cons]
      have : ¬ e.1 = key' := fun hk => h (hk.symm.trans he)
      rw [if_neg this]
    · rw [List.eraseP_cons_of_neg (by simpa using he), find_cons, find_cons, ih]

end UnorderedMap

theorem generatedSum_append (bs : List Block) (b : Block) :
    generatedSum (bs ++ [b]) = generatedSum bs + (b.transactionHashes.length + 1) := by
  simp [generatedSum]

namespace GeneratedTransactionsIndex

/-- Adding one more block after a list of blocks. -/
theorem addAll_append (self : GeneratedTransactionsIndex) (bs : List Block) (b : Block) :
    self.addAll (bs ++ [b]) =
      match self.addAll bs with
      | Except.error e => Except.error e
      | Except.ok done =>
        match done.2.add b with
        | Except.error e => Except.error e
        | Except.ok r => Except.ok (done.1 ++ [r.1], r.2) := by
  simp only [addAll, List.foldl_append, List.foldl_cons, List.foldl_nil]

/-- The state of a fresh enabled index after the blocks of heights
`0, .., n-1` have been added in this order: every `add` returned `true`, the
index holds for each height `h < n` the number of transactions generated by
the blocks up to height `h`, and `lastGeneratedTxNumber` is the total. -/
theorem addAll_state (blocks : List Block)
    (hheights : blocks.map baseInputBlockIndex =
      (List.range blocks.length).map Except.ok) :
    ∃ s, (construct true).addAll blocks = Except.ok (List.replicate blocks.length true, s) ∧
      s.enabled = true ∧ s.index.length = blocks.length ∧
      (∀ h, s.index.find h =
        if h < blocks.length then some (generatedSum (blocks.take (h + 1)) % 2 ^ 64) else none) ∧
      s.lastGeneratedTxNumber = generatedSum blocks % 2 ^ 64 := by
  induction blocks using List.reverseRecOn with
  | nil =>
    refine ⟨construct true, rfl, rfl, rfl, ?_, rfl⟩
    intro h
    simp [construct, UnorderedMap.find_nil]
  | append_singleton bs b ih =>
    simp only [List.map_append, List.map_cons, List.map_nil, List.length_append,
      List.length_singleton, List.range_succ] at hheights
    have hlen : (bs.map baseInputBlockIndex).length =
        ((List.range bs.length).map
          (fun i => (Except.ok i : Except String Nat))).length := by simp
    obtain ⟨hbs, hb⟩ := List.append_inj hheights hlen
    have hb' : baseInputBlockIndex b = Except.ok bs.length := by
      simpa using hb
    obtain ⟨s, hs, hen, hlen', hfind, hlast⟩ := ih hbs
    have hnone : s.index.find bs.length = none := by
      rw [hfind, if_neg (Nat.lt_irrefl _)]
    have hadd : s.add b = Except.ok (true,
        ⟨(bs.length, (s.lastGeneratedTxNumber + b.transactionHashes.length + 1) % 2 ^ 64)
            :: s.index,
          (s.lastGeneratedTxNumber + b.transactionHashes.length + 1) % 2 ^ 64, true⟩) := by
      simp only [add, hen, hb', hlen', UnorderedMap.emplace, hnone]
      simp
      rfl
    have hval : (s.lastGeneratedTxNumber + b.transactionHashes.length + 1) % 2 ^ 64 =
        generatedSum (bs ++ [b]) % 2 ^ 64 := by
      rw [hlast, generatedSum_append]
      omega
    refine ⟨⟨(bs.length, (s.lastGeneratedTxNumber + b.transactionHashes.length + 1) % 2 ^ 64)
        :: s.index, (s.lastGeneratedTxNumber + b.transactionHashes.length + 1) % 2 ^ 64, true⟩,
      ?_, rfl, ?_, ?_, hval⟩
    · rw [addAll_append, hs]
      simp only [hadd, List.length_append, List.length_singleton, List.replicate_succ']
    · simp [hlen']
    · intro h
      simp only [UnorderedMap.find_cons, List.length_append, List.length_singleton]
      by_cases hh : bs.length = h
      · subst hh
        rw [if_pos rfl, if_pos (Nat.lt_succ_self _), hval, List.take_of_length_le (by simp)]
      · rw [if_neg hh, hfind]
        by_cases hlt : h < bs.length
        · rw [if_pos hlt, if_pos (by omega), List.take_append_of_le_length (by omega)]
        · rw [if_neg hlt, if_neg (by omega)]

/-- Claim C18: after the blocks `b_0, .., b_(n-1)` with base-input heights
`0, .., n-1` have been added in this order to a freshly constructed enabled
index, every `add` has returned `true`; for every `h < n`, `find(h)` returns
`true` with `generatedTransactions` the sum over `i ≤ h` of the number of
transaction hashes of `b_i` plus 1, modulo `2^64`; for every `h ≥ n`, `find(h)`
returns `false` and leaves `generatedTransactions` as it was. The height `h`
is a `uint32_t`. -/
theorem addAll_find (blocks : List Block)
    (hheights : blocks.map baseInputBlockIndex =
      (List.range blocks.length).map Except.ok) :
    ∃ s, (construct true).addAll blocks = Except.ok (List.replicate blocks.length true, s) ∧
      (∀ h generatedTransactions, h < 2 ^ 32 → h < blocks.length →
        s.find h generatedTransactions =
          Except.ok (true, generatedSum (blocks.take (h + 1)) % 2 ^ 64)) ∧
      (∀ h generatedTransactions, h < 2 ^ 32 → blocks.length ≤ h →
        s.find h generatedTransactions = Except.ok (false, generatedTransactions)) := by
  obtain ⟨s, hs, hen, _, hfind, _⟩ := addAll_state blocks hheights
  refine ⟨s, hs, ?_, ?_⟩
  · intro h out h32 hlt
    have hnot : ¬ h > 4294967295 := by omega
    simp only [find, hen, hnot, hfind h, if_pos hlt]
    rfl
  · intro h out h32 hge
    have hnot : ¬ h > 4294967295 := by omega
    have hnlt : ¬ h < blocks.length := by omega
    simp only [find, hen, hnot, hfind h, if_neg hnlt]
    rfl

/-- Witness for claim C18: three blocks with 2, 0 and 1 transaction hashes. -/
theorem addAll_find_witness :
    ∃ s, (construct true).addAll
        [⟨⟨[TransactionInput.BaseInput 0], []⟩, [5, 6]⟩,
          ⟨⟨[TransactionInput.BaseInput 1], []⟩, []⟩,
          ⟨⟨[TransactionInput.BaseInput 2], []⟩, [7]⟩] =
        Except.ok ([true, true, true], s) ∧
      s.find 0 99 = Except.ok (true, 3) ∧
      s.find 1 99 = Except.ok (true, 4) ∧
      s.find 2 99 = Except.ok (true, 6) ∧
      s.find 3 99 = Except.ok (false, 99) := by
  obtain ⟨s, hs, h1, h2⟩ := addAll_find
    [⟨⟨[TransactionInput.BaseInput 0], []⟩, [5, 6]⟩,
      ⟨⟨[TransactionInput.BaseInput 1], []⟩, []⟩,
      ⟨⟨[TransactionInput.BaseInput 2], []⟩, [7]⟩] rfl
  exact ⟨s, hs, h1 0 99 (by norm_num) (by decide), h1 1 99 (by norm_num) (by decide),
    h1 2 99 (by norm_num) (by decide), h2 3 99 (by norm_num) (by decide)⟩

/-- Claim C17, the code at the failing input: a fresh enabled index satisfies
the invariant, and so does the index after `add` of a block of height 0 with
two transaction hashes, where `lastGeneratedTxNumber` is 3; `clear` then
empties the index and leaves `lastGeneratedTxNumber` at 3, so the invariant no
longer holds, and the same block added again is stored with the count 6. -/
theorem clear_breaks_invariant :
    Invariant (construct true) ∧
    (construct true).add ⟨⟨[TransactionInput.BaseInput 0], []⟩, [5, 6]⟩ =
      Except.ok (true, ⟨[(0, 3)], 3, true⟩) ∧
    Invariant ⟨[(0, 3)], 3, true⟩ ∧
    clear ⟨[(0, 3)], 3, true⟩ = ⟨[], 3, true⟩ ∧
    ¬ Invariant ⟨[], 3, true⟩ ∧
    add ⟨[], 3, true⟩ ⟨⟨[TransactionInput.BaseInput 0], []⟩, [5, 6]⟩ =
      Except.ok (true, ⟨[(0, 6)], 6, true⟩) := by
  refine ⟨by decide, rfl, by decide, rfl, by decide, rfl⟩

/-- The part of claim C17 about `add`: `add` keeps the invariant. -/
theorem add_invariant (self : GeneratedTransactionsIndex) (block : Block)
    (r : Bool × GeneratedTransactionsIndex) (hinv : Invariant self)
    (hadd : self.add block = Except.ok r) : Invariant r.2 := by
  obtain ⟨hperm, _⟩ := hinv
  have hkey : self.index.length ∉ self.index.map Prod.fst := by
    intro hmem
    have := hperm.mem_iff.mp hmem
    simp at this
  have hnone := (UnorderedMap.find_eq_none_iff _ _).mpr hkey
  unfold add at hadd
  by_cases hen : self.enabled = true
  · simp only [hen, Bool.not_true, Bool.false_eq_true, if_false] at hadd
    cases hb : baseInputBlockIndex block with
    | error e =>
      rw [hb] at hadd
      cases hadd
    | ok blockHeight =>
      rw [hb] at hadd
      simp only at hadd
      by_cases hh : self.index.length ≠ blockHeight
      · rw [if_pos hh] at hadd
        cases hadd
        exact ⟨hperm, by assumption⟩
      · have hh' : blockHeight = self.index.length := by omega
        subst hh'
        simp only [ne_eq, not_true_eq_false, if_false, UnorderedMap.emplace, hnone,
          if_true] at hadd
        cases hadd
        refine ⟨?_, Or.inr ⟨by simp, ?_⟩⟩
        · simp only [List.map_cons, List.length_cons, List.range_succ]
          exact List.Perm.trans (List.Perm.cons _ hperm)
            (List.Perm.symm (List.perm_append_singleton _ _))
        · simp [UnorderedMap.find_cons]
  · have hen' : self.enabled = false := by simpa using hen
    simp only [hen', Bool.not_false, if_true] at hadd
    cases hadd
    exact ⟨hperm, by assumption⟩

/-- The part of claim C17 about `remove`: `remove` keeps the invariant; the
size of the index fits the 64-bit `size_t`. -/
theorem remove_invariant (self : GeneratedTransactionsIndex) (block : Block)
    (r : Bool × GeneratedTransactionsIndex) (hinv : Invariant self)
    (hsize : self.index.length < 2 ^ 64)
    (hrem : self.remove block = Except.ok r) : Invariant r.2 := by
  have hinv' := hinv
  obtain ⟨hperm, _⟩ := hinv
  unfold remove at hrem
  by_cases hen : self.enabled = true
  · simp only [hen, Bool.not_true, Bool.false_eq_true, if_false] at hrem
    cases hb : baseInputBlockIndex block with
    | error e =>
      rw [hb] at hrem
      cases hrem
    | ok blockHeight =>
      rw [hb] at hrem
      simp only at hrem
      by_cases hh : blockHeight ≠ (self.index.length + 2 ^ 64 - 1) % 2 ^ 64
      · rw [if_pos hh] at hrem
        cases hrem
        exact hinv'
      · rw [if_neg hh] at hrem
        cases hf : self.index.find blockHeight with
        | none =>
          rw [hf] at hrem
          cases hrem
        | some v =>
          rw [hf] at hrem
          simp only at hrem
          have hmem : blockHeight ∈ self.index.map Prod.fst := by
            by_contra hc
            rw [(UnorderedMap.find_eq_none_iff _ _).mpr hc] at hf
            cases hf
          have hlt : blockHeight < self.index.length := by
            have := hperm.mem_iff.mp hmem
            simpa using this
          have hbh : blockHeight + 1 = self.index.length := by omega
          have hkeys := UnorderedMap.keys_erase_perm self.index blockHeight hmem
          have hrange : List.Perm (List.range self.index.length)
              (blockHeight :: List.range blockHeight) := by
            rw [← hbh, List.range_succ]
            exact List.perm_append_singleton _ _
          have hperm' : List.Perm ((UnorderedMap.erase self.index blockHeight).map Prod.fst)
              (List.range blockHeight) :=
            List.Perm.cons_inv
              (List.Perm.trans (List.Perm.symm hkeys) (List.Perm.trans hperm hrange))
          have hlen' : (UnorderedMap.erase self.index blockHeight).length = blockHeight := by
            have := hperm'.length_eq
            simpa using this
          by_cases hz : blockHeight ≠ 0
          · rw [if_pos hz] at hrem
            cases hf2 : UnorderedMap.find (UnorderedMap.erase self.index blockHeight)
                (blockHeight - 1) with
            | none =>
              rw [hf2] at hrem
              cases hrem
            | some value =>
              rw [hf2] at hrem
              cases hrem
              refine ⟨?_, Or.inr ⟨?_, ?_⟩⟩
              · simp only [hlen']
                exact hperm'
              · simp only [hlen']
                omega
              · simp only [hlen']
                exact hf2
          · rw [if_neg hz] at hrem
            cases hrem
            have hz' : blockHeight = 0 := by omega
            refine ⟨?_, Or.inl ⟨?_, rfl⟩⟩
            · simp only [hlen']
              exact hperm'
            · simp only [hlen']
              exact hz'
  · have hen' : self.enabled = false := by simpa using hen
    simp only [hen', Bool.not_false, if_true] at hrem
    cases hrem
    exact hinv'

/-! ### The assertions of `remove` -/

/-- When the stored heights are exactly `0 .. n-1`, `find` succeeds for every
height below `n`. -/
theorem find_of_lt (m : UnorderedMap) (h : Nat)
    (hperm : List.Perm (m.map Prod.fst) (List.range m.length)) (hlt : h < m.length) :
    ∃ value, UnorderedMap.find m h = some value := by
  cases hf : UnorderedMap.find m h with
  | some value => exact ⟨value, rfl⟩
  | none =>
    have hnot := (UnorderedMap.find_eq_none_iff m h).mp hf
    exact absurd (hperm.mem_iff.mpr (List.mem_range.mpr hlt)) hnot

/-- Erasing the greatest height `n-1` leaves the heights `0 .. n-2`. -/
theorem erase_last_perm (m : UnorderedMap) (h : Nat)
    (hperm : List.Perm (m.map Prod.fst) (List.range m.length)) (hh : h + 1 = m.length) :
    List.Perm ((UnorderedMap.erase m h).map Prod.fst) (List.range h) ∧
    (UnorderedMap.erase m h).length = h := by
  have hmem : h ∈ m.map Prod.fst := hperm.mem_iff.mpr (List.mem_range.mpr (by omega))
  have hkeys := UnorderedMap.keys_erase_perm m h hmem
  have hrange : List.Perm (List.range m.length) (h :: List.range h) := by
    rw [← hh, List.range_succ]
    exact List.perm_append_singleton _ _
  have hperm' : List.Perm ((UnorderedMap.erase m h).map Prod.fst) (List.range h) :=
    List.Perm.cons_inv (List.Perm.trans (List.Perm.symm hkeys) (List.Perm.trans hperm hrange))
  refine ⟨hperm', ?_⟩
  have := hperm'.length_eq
  simpa using this

/-- In a state that satisfies `HeightsInvariant`, `remove` of a block with a
`BaseInput` as first input returns: neither assertion fails. The state after
it satisfies `HeightsInvariant` again, and on an empty index `remove` returns
`false` and changes nothing. -/
theorem remove_ok (self : GeneratedTransactionsIndex) (block : Block) (blockHeight : Nat)
    (hinv : HeightsInvariant self)
    (hb : baseInputBlockIndex block = Except.ok blockHeight) (h32 : blockHeight < 2 ^ 32) :
    ∃ r, self.remove block = Except.ok r ∧ HeightsInvariant r.2 ∧
      (self.index = [] → r = (false, self)) := by
  obtain ⟨hen, hperm, hsize⟩ := hinv
  unfold remove
  simp only [hen, Bool.not_true, Bool.false_eq_true, if_false, hb]
  by_cases hh : blockHeight ≠ (self.index.length + 2 ^ 64 - 1) % 2 ^ 64
  · rw [if_pos hh]
    exact ⟨_, rfl, ⟨hen, hperm, hsize⟩, fun _ => rfl⟩
  · rw [if_neg hh]
    have hbh : blockHeight + 1 = self.index.length := by omega
    obtain ⟨v, hv⟩ := find_of_lt self.index blockHeight hperm (by omega)
    obtain ⟨hperm', hlen'⟩ := erase_last_perm self.index blockHeight hperm hbh
    have hne : self.index ≠ [] := by
      intro hnil
      rw [hnil] at hbh
      simp at hbh
    rw [hv]
    simp only
    by_cases hz : blockHeight ≠ 0
    · rw [if_pos hz]
      have hperm'' : List.Perm ((UnorderedMap.erase self.index blockHeight).map Prod.fst)
          (List.range (UnorderedMap.erase self.index blockHeight).length) := by
        rw [hlen']
        exact hperm'
      obtain ⟨value, hvalue⟩ := find_of_lt (UnorderedMap.erase self.index blockHeight)
        (blockHeight - 1) hperm'' (by omega)
      rw [hvalue]
      refine ⟨_, rfl, ⟨rfl, hperm'', ?_⟩, fun hnil => absurd hnil hne⟩
      simp only [hlen']
      omega
    · rw [if_neg hz]
      refine ⟨_, rfl, ⟨rfl, ?_, ?_⟩, fun hnil => absurd hnil hne⟩
      · simp only [hlen']
        exact hperm'
      · simp only [hlen']
        omega

/-- The calls `add` keep `HeightsInvariant`, for a block whose height is a
`uint32_t`. -/
theorem add_heights (self : GeneratedTransactionsIndex) (block : Block)
    (r : Bool × GeneratedTransactionsIndex) (hinv : HeightsInvariant self)
    (hfit : blockIndexFits block = true) (hadd : self.add block = Except.ok r) :
    HeightsInvariant r.2 := by
  obtain ⟨hen, hperm, hsize⟩ := hinv
  have hkey : self.index.length ∉ self.index.map Prod.fst := by
    intro hmem
    have := hperm.mem_iff.mp hmem
    simp at this
  have hnone := (UnorderedMap.find_eq_none_iff _ _).mpr hkey
  unfold add at hadd
  simp only [hen, Bool.not_true, Bool.false_eq_true, if_false] at hadd
  cases hb : baseInputBlockIndex block with
  | error e =>
    rw [hb] at hadd
    cases hadd
  | ok blockHeight =>
    rw [hb] at hadd
    simp only at hadd
    have h32 : blockHeight < 2 ^ 32 := by
      simpa [blockIndexFits, hb] using hfit
    by_cases hh : self.index.length ≠ blockHeight
    · rw [if_pos hh] at hadd
      cases hadd
      exact ⟨hen, hperm, hsize⟩
    · have hh' : blockHeight = self.index.length := by omega
      subst hh'
      simp only [ne_eq, not_true_eq_false, if_false, UnorderedMap.emplace, hnone,
        if_true] at hadd
      cases hadd
      refine ⟨rfl, ?_, ?_⟩
      · simp only [List.map_cons, List.length_cons, List.range_succ]
        exact List.Perm.trans (List.Perm.cons _ hperm)
          (List.Perm.symm (List.perm_append_singleton _ _))
      · simp only [List.length_cons]
        omega

/-- Every call keeps `HeightsInvariant`. -/
theorem call_heights (self : GeneratedTransactionsIndex) (c : IndexCall Block)
    (hinv : HeightsInvariant self) (hfit : callFits c = true) :
    HeightsInvariant (self.call c) := by
  cases c with
  | add block =>
    simp only [call]
    cases hadd : self.add block with
    | error e => exact hinv
    | ok r => exact add_heights self block r hinv hfit hadd
  | remove block =>
    simp only [call]
    cases hb : baseInputBlockIndex block with
    | error e =>
      have hrem : self.remove block = Except.error e := by
        simp only [remove, hinv.1, Bool.not_true, Bool.false_eq_true, if_false, hb]
        rfl
      rw [hrem]
      exact hinv
    | ok blockHeight =>
      have h32 : blockHeight < 2 ^ 32 := by
        simpa [callFits, blockIndexFits, hb] using hfit
      obtain ⟨r, hr, hinv', _⟩ := remove_ok self block blockHeight hinv hb h32
      rw [hr]
      exact hinv'
  | clear =>
    simp only [call, clear, hinv.1, if_true]
    exact ⟨rfl, List.Perm.refl _, by simp⟩

/-- Every state that calls of `add`, `remove` and `clear` lead to from a fresh
enabled index satisfies `HeightsInvariant`. -/
theorem run_heights (calls : List (IndexCall Block)) :
    ∀ self : GeneratedTransactionsIndex, HeightsInvariant self →
      (∀ c ∈ calls, callFits c = true) → HeightsInvariant (calls.foldl call self) := by
  induction calls with
  | nil =>
    intro self hinv _
    exact hinv
  | cons c rest ih =>
    intro self hinv hfit
    rw [List.foldl_cons]
    exact ih (self.call c)
      (call_heights self c hinv (hfit c (List.mem_cons_self _ _)))
      (fun c' hc' => hfit c' (List.mem_cons_of_mem _ hc'))

/-- Claim C21: in every state that calls of `add`, `remove` and `clear` lead to
from a freshly constructed enabled index, and for every block whose base
transaction has a `BaseInput` as first input, `remove` returns without
violating an assertion: when the height passes the test against
`index.size() - 1`, `index.find(blockHeight)` finds an entry, and so does
`index.find(blockHeight - 1)` after the erase when the height is not 0. On an
empty index `index.size() - 1` wraps around to `2^64 - 1`, and `remove` returns
`false` and changes nothing. The heights are `uint32_t` values. -/
theorem remove_assertions_hold (calls : List (IndexCall Block)) (block : Block)
    (blockHeight : Nat) (hcalls : ∀ c ∈ calls, callFits c = true)
    (hb : baseInputBlockIndex block = Except.ok blockHeight) (h32 : blockHeight < 2 ^ 32) :
    (∃ r, (calls.foldl call (construct true)).remove block = Except.ok r) ∧
    (blockHeight = ((calls.foldl call (construct true)).index.length + 2 ^ 64 - 1) % 2 ^ 64 →
      (∃ value, (calls.foldl call (construct true)).index.find blockHeight = some value) ∧
      (blockHeight ≠ 0 → ∃ value,
        UnorderedMap.find ((calls.foldl call (construct true)).index.erase blockHeight)
          (blockHeight - 1) = some value)) ∧
    ((calls.foldl call (construct true)).index = [] →
      ((calls.foldl call (construct true)).index.length + 2 ^ 64 - 1) % 2 ^ 64 = 2 ^ 64 - 1 ∧
      (calls.foldl call (construct true)).remove block =
        Except.ok (false, calls.foldl call (construct true))) := by
  have hfresh : HeightsInvariant (construct true) :=
    ⟨rfl, List.Perm.refl _, Nat.zero_le _⟩
  have hinv := run_heights calls (construct true) hfresh hcalls
  obtain ⟨r, hr, _, hempty⟩ := remove_ok _ block blockHeight hinv hb h32
  refine ⟨⟨r, hr⟩, ?_, ?_⟩
  · intro hcond
    obtain ⟨_, hperm, hsize⟩ := hinv
    have hbh : blockHeight + 1 = (calls.foldl call (construct true)).index.length := by omega
    refine ⟨find_of_lt _ blockHeight hperm (by omega), ?_⟩
    intro hz
    obtain ⟨hperm', hlen'⟩ := erase_last_perm _ blockHeight hperm hbh
    exact find_of_lt _ (blockHeight - 1) (by rw [hlen']; exact hperm') (by omega)
  · intro hnil
    refine ⟨?_, ?_⟩
    · rw [hnil]
      rfl
    · rw [hr, hempty hnil]

/-- Witness for claim C21: two blocks are added, the index is cleared, a block
is added again; then `remove` of this block returns, and so does `remove` of a
block of height 5, and `remove` on the index that was just cleared returns
`false`. -/
theorem remove_assertions_hold_witness :
    (∃ r, ([IndexCall.add ⟨⟨[TransactionInput.BaseInput 0], []⟩, [5, 6]⟩,
          IndexCall.add ⟨⟨[TransactionInput.BaseInput 1], []⟩, []⟩,
          IndexCall.clear,
          IndexCall.add ⟨⟨[TransactionInput.BaseInput 0], []⟩, [5, 6]⟩].foldl call
        (construct true)).remove ⟨⟨[TransactionInput.BaseInput 0], []⟩, [5, 6]⟩ =
      Except.ok r) ∧
    (([IndexCall.add ⟨⟨[TransactionInput.BaseInput 0], []⟩, [5, 6]⟩,
          IndexCall.clear].foldl call
        (construct true)).remove ⟨⟨[TransactionInput.BaseInput 0], []⟩, [5, 6]⟩ =
      Except.ok (false, [IndexCall.add ⟨⟨[TransactionInput.BaseInput 0], []⟩, [5, 6]⟩,
          IndexCall.clear].foldl call (construct true))) := by
  refine ⟨?_, ?_⟩
  · exact (remove_assertions_hold
      [IndexCall.add ⟨⟨[TransactionInput.BaseInput 0], []⟩, [5, 6]⟩,
        IndexCall.add ⟨⟨[TransactionInput.BaseInput 1], []⟩, []⟩,
        IndexCall.clear,
        IndexCall.add ⟨⟨[TransactionInput.BaseInput 0], []⟩, [5, 6]⟩]
      ⟨⟨[TransactionInput.BaseInput 0], []⟩, [5, 6]⟩ 0 (by decide) rfl (by norm_num)).1
  · exact ((remove_assertions_hold
      [IndexCall.add ⟨⟨[TransactionInput.BaseInput 0], []⟩, [5, 6]⟩, IndexCall.clear]
      ⟨⟨[TransactionInput.BaseInput 0], []⟩, [5, 6]⟩ 0 (by decide) rfl (by norm_num)).2.2
        rfl).2

/-- Claim C22: on an enabled index whose stored heights are exactly `0 .. n-1`
and whose `lastGeneratedTxNumber` is the value at height `n-1`, or 0 when the
index is empty, and for a block with base-input height `n` (a `uint32_t`):
`add` returns `true`, `remove` of the same block right after returns `true`,
and the index, `lastGeneratedTxNumber` included, is then exactly what it was
before the `add`; `add` of a block whose height differs from `n` returns
`false` and changes nothing. -/
theorem add_remove_roundtrip (self : GeneratedTransactionsIndex) (block other : Block)
    (otherHeight : Nat) (hen : self.enabled = true) (hinv : Invariant self)
    (h32 : self.index.length < 2 ^ 32)
    (hb : baseInputBlockIndex block = Except.ok self.index.length)
    (ho : baseInputBlockIndex other = Except.ok otherHeight)
    (hne : otherHeight ≠ self.index.length) :
    ∃ added, self.add block = Except.ok (true, added) ∧
      added.remove block = Except.ok (true, self) ∧
      self.add other = Except.ok (false, self) := by
  obtain ⟨hperm, hlast⟩ := hinv
  have hkey : self.index.length ∉ self.index.map Prod.fst := by
    intro hmem
    have := hperm.mem_iff.mp hmem
    simp at this
  have hnone := (UnorderedMap.find_eq_none_iff _ _).mpr hkey
  have hadd : self.add block = Except.ok (true,
      ⟨(self.index.length,
          (self.lastGeneratedTxNumber + block.transactionHashes.length + 1) % 2 ^ 64)
        :: self.index,
        (self.lastGeneratedTxNumber + block.transactionHashes.length + 1) % 2 ^ 64, true⟩) := by
    simp only [add, hen, hb, UnorderedMap.emplace, hnone]
    simp
    rfl
  refine ⟨_, hadd, ?_, ?_⟩
  · have hcond : ¬ self.index.length ≠ (self.index.length + 1 + 2 ^ 64 - 1) % 2 ^ 64 := by
      omega
    have herase : UnorderedMap.erase
        ((self.index.length,
          (self.lastGeneratedTxNumber + block.transactionHashes.length + 1) % 2 ^ 64)
          :: self.index) self.index.length = self.index := by
      simp [UnorderedMap.erase]
    simp only [remove, Bool.not_true, Bool.false_eq_true, if_false, hb, List.length_cons,
      if_neg hcond, UnorderedMap.find_cons, if_true, herase]
    rcases hlast with ⟨hz, hl⟩ | ⟨hpos, hl⟩
    · have hz' : ¬ self.index.length ≠ 0 := by omega
      rw [if_neg hz']
      cases self with
      | mk index last enabled =>
        simp only at hl hen
        subst hl
        subst hen
        rfl
    · have hz' : self.index.length ≠ 0 := by omega
      rw [if_pos hz', hl]
      cases self with
      | mk index last enabled =>
        simp only at hen
        subst hen
        rfl
  · have hne' : self.index.length ≠ otherHeight := fun h => hne h.symm
    simp only [add, hen, ho, Bool.not_true, Bool.false_eq_true, if_false, if_pos hne']
    rfl

/-- Witness for claim C22: an index with the heights 0 and 1, a block of
height 2 with one transaction hash, and a block of height 5. -/
theorem add_remove_roundtrip_witness :
    ∃ added, add ⟨[(1, 7), (0, 3)], 7, true⟩ ⟨⟨[TransactionInput.BaseInput 2], []⟩, [9]⟩ =
        Except.ok (true, added) ∧
      added.remove ⟨⟨[TransactionInput.BaseInput 2], []⟩, [9]⟩ =
        Except.ok (true, ⟨[(1, 7), (0, 3)], 7, true⟩) ∧
      add ⟨[(1, 7), (0, 3)], 7, true⟩ ⟨⟨[TransactionInput.BaseInput 5], []⟩, []⟩ =
        Except.ok (false, ⟨[(1, 7), (0, 3)], 7, true⟩) :=
  add_remove_roundtrip ⟨[(1, 7), (0, 3)], 7, true⟩ ⟨⟨[TransactionInput.BaseInput 2], []⟩, [9]⟩
    ⟨⟨[TransactionInput.BaseInput 5], []⟩, []⟩ 5 rfl (by decide) (by decide) rfl rfl (by decide)

end GeneratedTransactionsIndex

/-! ## The order of the sorted transactions model -/

namespace WalletGui

namespace SortedTransactionsModel

/-- The value of `lessThan` in terms of whether each date is missing. -/
theorem lessThan_eq (l r : QModelIndex) :
    lessThan l r =
      if r.date.missing = true ∧ l.date.missing = true then decide (l.row < r.row)
      else if l.date.missing = true then false
      else if r.date.missing = true then true
      else decide (l.date.toMSecsSinceEpoch < r.date.toMSecsSinceEpoch) := by
  unfold lessThan QDateTime.missing
  dsimp only
  generalize (l.date.isNull || !l.date.isValid) = ml
  generalize (r.date.isNull || !r.date.isValid) = mr
  cases ml <;> cases mr <;> simp

/-- Claim C23: `lessThan` is a strict weak ordering on rows given by a row
number and a date that is either valid or missing (null or invalid): it is
irreflexive and transitive, and being incomparable is transitive; every row
with a valid date is less than every row with a missing date and never the
other way round, two rows with valid dates are ordered by their dates, and two
rows with missing dates are ordered by their row numbers. -/
theorem lessThan_strict_weak_order :
    (∀ a : QModelIndex, lessThan a a = false) ∧
    (∀ a b c : QModelIndex, lessThan a b = true → lessThan b c = true → lessThan a c = true) ∧
    (∀ a b c : QModelIndex, lessThan a b = false → lessThan b a = false →
      lessThan b c = false → lessThan c b = false →
      lessThan a c = false ∧ lessThan c a = false) ∧
    (∀ a b : QModelIndex, a.date.missing = false → b.date.missing = true →
      lessThan a b = true ∧ lessThan b a = false) ∧
    (∀ a b : QModelIndex, a.date.missing = false → b.date.missing = false →
      (lessThan a b = true ↔ a.date.toMSecsSinceEpoch < b.date.toMSecsSinceEpoch)) ∧
    (∀ a b : QModelIndex, a.date.missing = true → b.date.missing = true →
      (lessThan a b = true ↔ a.row < b.row)) := by
  refine ⟨?_, ?_, ?_, ?_, ?_, ?_⟩
  · intro a
    rw [lessThan_eq]
    cases ha : a.date.missing <;> simp
  · intro a b c hab hbc
    rw [lessThan_eq] at hab hbc ⊢
    cases ha : a.date.missing <;> cases hb : b.date.missing <;> cases hc : c.date.missing <;>
      simp [ha, hb, hc] at hab hbc ⊢ <;> omega
  · intro a b c hab hba hbc hcb
    rw [lessThan_eq] at hab hba hbc hcb
    rw [lessThan_eq, lessThan_eq]
    cases ha : a.date.missing <;> cases hb : b.date.missing <;> cases hc : c.date.missing <;>
      simp [ha, hb, hc] at hab hba hbc hcb ⊢ <;> omega
  · intro a b ha hb
    rw [lessThan_eq, lessThan_eq]
    simp [ha, hb]
  · intro a b ha hb
    rw [lessThan_eq]
    simp [ha, hb]
  · intro a b ha hb
    rw [lessThan_eq]
    simp [ha, hb]

/-- Witness for claim C23: a row with a valid date, a row with a later valid
date, and two rows with a null date. -/
theorem lessThan_strict_weak_order_witness :
    lessThan ⟨7, ⟨false, true, 1000⟩⟩ ⟨3, ⟨false, true, 2000⟩⟩ = true ∧
    lessThan ⟨3, ⟨false, true, 2000⟩⟩ ⟨1, ⟨true, false, 0⟩⟩ = true ∧
    lessThan ⟨7, ⟨false, true, 1000⟩⟩ ⟨1, ⟨true, false, 0⟩⟩ = true ∧
    lessThan ⟨1, ⟨true, false, 0⟩⟩ ⟨2, ⟨true, false, 0⟩⟩ = true ∧
    lessThan ⟨2, ⟨true, false, 0⟩⟩ ⟨7, ⟨false, true, 1000⟩⟩ = false := by
  obtain ⟨_, htrans, _, hvalid, hdates, hrows⟩ := lessThan_strict_weak_order
  have h1 : lessThan ⟨7, ⟨false, true, 1000⟩⟩ ⟨3, ⟨false, true, 2000⟩⟩ = true :=
    (hdates ⟨7, ⟨false, true, 1000⟩⟩ ⟨3, ⟨false, true, 2000⟩⟩ rfl rfl).mpr (by decide)
  have h2 := hvalid ⟨3, ⟨false, true, 2000⟩⟩ ⟨1, ⟨true, false, 0⟩⟩ rfl rfl
  exact ⟨h1, h2.1, htrans _ _ _ h1 h2.1,
    (hrows ⟨1, ⟨true, false, 0⟩⟩ ⟨2, ⟨true, false, 0⟩⟩ rfl rfl).mpr (by decide),
    (hvalid ⟨7, ⟨false, true, 1000⟩⟩ ⟨2, ⟨true, false, 0⟩⟩ rfl rfl).2⟩

end SortedTransactionsModel

end WalletGui

end DynexCN
